import Mathlib

/-!
# Verification of the stocksync reconciliation engine

A shallow embedding of `src/sync_logic.py` (a physical-inventory /
Shopify-export reconciliation engine).  Python strings are modelled as
`List Char` (`Str` below); pandas DataFrames are modelled as Lean lists of
row structures; Python dicts are modelled as association lists or lookup
functions, as noted at each definition.  Numeric cells hold decimal text,
so Python `float` values that actually occur are modelled exactly by `ℚ`.
Each `def` mirrors one Python function of the source and is named after it.
-/

namespace StockSync

/-- Python strings, modelled as their list of characters. -/
abbrev Str := List Char

/-- Python whitespace (`str.strip`, `\s`), restricted to the ASCII
whitespace characters, the only ones this data can contain. -/
def isWS (c : Char) : Bool :=
  c = ' ' || c = '\t' || c = '\n' || c = '\r' || c.toNat = 11 || c.toNat = 12

def isUpperAZ (c : Char) : Bool := 'A' ≤ c && c ≤ 'Z'

def isLowerAZ (c : Char) : Bool := 'a' ≤ c && c ≤ 'z'

def isDigitC (c : Char) : Bool := '0' ≤ c && c ≤ '9'

/-- Python `str.upper` on one character: ASCII letters plus the Latin-1
accented letters that occur in this code base (brand list, placeholder). -/
def upChar (c : Char) : Char :=
  if isLowerAZ c then Char.ofNat (c.toNat - 32)
  else if c = 'à' then 'À' else if c = 'â' then 'Â' else if c = 'ä' then 'Ä'
  else if c = 'ç' then 'Ç' else if c = 'é' then 'É' else if c = 'è' then 'È'
  else if c = 'ê' then 'Ê' else if c = 'ë' then 'Ë' else if c = 'î' then 'Î'
  else if c = 'ï' then 'Ï' else if c = 'ô' then 'Ô' else if c = 'ö' then 'Ö'
  else if c = 'ù' then 'Ù' else if c = 'û' then 'Û' else if c = 'ü' then 'Ü'
  else c

/-- Python `str.lower` on one character (same character range as `upChar`). -/
def downChar (c : Char) : Char :=
  if isUpperAZ c then Char.ofNat (c.toNat + 32)
  else if c = 'À' then 'à' else if c = 'Â' then 'â' else if c = 'Ä' then 'ä'
  else if c = 'Ç' then 'ç' else if c = 'É' then 'é' else if c = 'È' then 'è'
  else if c = 'Ê' then 'ê' else if c = 'Ë' then 'ë' else if c = 'Î' then 'î'
  else if c = 'Ï' then 'ï' else if c = 'Ô' then 'ô' else if c = 'Ö' then 'ö'
  else if c = 'Ù' then 'ù' else if c = 'Û' then 'û' else if c = 'Ü' then 'ü'
  else c

def pyUpper (s : Str) : Str := s.map upChar

def pyLower (s : Str) : Str := s.map downChar

/-- `unicodedata.normalize("NFD", ·)` followed by dropping combining marks,
restricted to the precomposed Latin-1 letters this data can contain. -/
def stripAccentChar (c : Char) : Char :=
  if c = 'à' || c = 'â' || c = 'ä' then 'a'
  else if c = 'é' || c = 'è' || c = 'ê' || c = 'ë' then 'e'
  else if c = 'î' || c = 'ï' then 'i'
  else if c = 'ô' || c = 'ö' then 'o'
  else if c = 'ù' || c = 'û' || c = 'ü' then 'u'
  else if c = 'ç' then 'c'
  else if c = 'À' || c = 'Â' || c = 'Ä' then 'A'
  else if c = 'É' || c = 'È' || c = 'Ê' || c = 'Ë' then 'E'
  else if c = 'Î' || c = 'Ï' then 'I'
  else if c = 'Ô' || c = 'Ö' then 'O'
  else if c = 'Ù' || c = 'Û' || c = 'Ü' then 'U'
  else if c = 'Ç' then 'C'
  else c

def stripAccents (s : Str) : Str := s.map stripAccentChar

/-- Python `str.strip()`: drop whitespace from both ends. -/
def trim (s : Str) : Str :=
  ((s.dropWhile isWS).reverse.dropWhile isWS).reverse

/-- Python `str.strip('"')`: drop double quotes from both ends. -/
def stripQuotes (s : Str) : Str :=
  ((s.dropWhile (· = '"')).reverse.dropWhile (· = '"')).reverse

/-- The ten decimal digit characters. -/
def digitChars : Str := ['0', '1', '2', '3', '4', '5', '6', '7', '8', '9']

def digitChar (k : Nat) : Char := digitChars.getD k '0'

/-- Decimal digits of `n`, most significant first (fuel-based recursion;
the fuel `n + 1` always suffices). -/
def natDigitsAux : Nat → Nat → Str
  | 0, _ => []
  | fuel + 1, n =>
    if n < 10 then [digitChar n]
    else natDigitsAux fuel (n / 10) ++ [digitChar (n % 10)]

def natDigits (n : Nat) : Str := natDigitsAux (n + 1) n

/-- Python `str(i)` for an `int`. -/
def intStr (i : Int) : Str :=
  if i < 0 then '-' :: natDigits i.natAbs else natDigits i.toNat

/-- Numeric value of a digit string (most significant first). -/
def digitsVal (ds : Str) : Nat := ds.foldl (fun a c => a * 10 + (c.toNat - 48)) 0

/-- Digits-with-optional-fraction part of Python `float(s)` parsing:
`t1` is the text after the optional sign. -/
def parseDigits (neg : Bool) (t1 : Str) : Option (Bool × Nat × Str) :=
  let ip := t1.takeWhile isDigitC
  let r1 := t1.dropWhile isDigitC
  match r1 with
  | [] => if ip = [] then none else some (neg, digitsVal ip, ([] : Str))
  | '.' :: r2 =>
    let fp := r2.takeWhile isDigitC
    let r3 := r2.dropWhile isDigitC
    if r3 = [] && !(ip = [] && fp = []) then some (neg, digitsVal ip, fp) else none
  | _ => none

/-- Python `float(s)` on plain decimal text: optional surrounding
whitespace, optional sign, digits with an optional fractional part.
Returns (negative?, integer part, fractional digits).  The exotic float
syntaxes (`inf`, `nan`, exponents, `_` separators) never occur in this
data and are modelled as parse failures. -/
def parseDecimal (s : Str) : Option (Bool × Nat × Str) :=
  match trim s with
  | '-' :: t1 => parseDigits true t1
  | '+' :: t1 => parseDigits false t1
  | t1 => parseDigits false t1

/-- Exact value of a parsed decimal as a rational. -/
def decimalVal (d : Bool × Nat × Str) : ℚ :=
  let v : ℚ := (d.2.1 : ℚ) + (digitsVal d.2.2 : ℚ) / ((10 : ℚ) ^ d.2.2.length)
  if d.1 then -v else v

/-- Python `s.replace(",", ".")`. -/
def commaToDot (s : Str) : Str := s.map (fun c => if c = ',' then '.' else c)

/-- Python `int(float(s.replace(",", ".")))` with fallback 0 on a parse
error: truncation toward zero keeps the sign and the integer part. -/
def intOfRaw (s : Str) : Int :=
  match parseDecimal (commaToDot s) with
  | some (neg, ip, _) => if neg then -(ip : Int) else (ip : Int)
  | none => 0

/-- Python `float(s.replace(",", "."))` with fallback 0.0 on a parse error. -/
def floatOfRaw (s : Str) : ℚ :=
  match parseDecimal (commaToDot s) with
  | some d => decimalVal d
  | none => 0

/-- Python `s.split(sep)` for a one-character separator. -/
def splitChar (sep : Char) : Str → List Str
  | [] => [[]]
  | c :: rest =>
    if c = sep then [] :: splitChar sep rest
    else
      match splitChar sep rest with
      | [] => [[c]]
      | f :: r => (c :: f) :: r

/-- Python `s.split(sep)` for a multi-character separator (fuel-based;
`splitOnList` supplies enough fuel). -/
def splitOnAux (sep : Str) : Nat → Str → Str → List Str
  | 0, l, acc => [acc.reverse ++ l]
  | fuel + 1, l, acc =>
    match l with
    | [] => [acc.reverse]
    | c :: rest =>
      if sep.isPrefixOf (c :: rest) then
        acc.reverse :: splitOnAux sep fuel ((c :: rest).drop sep.length) []
      else
        splitOnAux sep fuel rest (c :: acc)

def splitOnList (sep l : Str) : List Str :=
  if sep = [] then [l] else splitOnAux sep (l.length + 1) l []

/-- pandas `.unique()`: distinct values in first-appearance order. -/
def uniqueFirstAux (seen : List Str) : List Str → List Str
  | [] => []
  | x :: xs =>
    if x ∈ seen then uniqueFirstAux seen xs
    else x :: uniqueFirstAux (x :: seen) xs

def uniqueFirst (l : List Str) : List Str := uniqueFirstAux [] l

/-- Python `dict` assignment `d[k] = v` on an association list: an existing
key keeps its position, a new key is appended (insertion order). -/
def dictInsert (k v : Str) : List (Str × Str) → List (Str × Str)
  | [] => [(k, v)]
  | (k', v') :: rest =>
    if k' = k then (k, v) :: rest else (k', v') :: dictInsert k v rest

/-- Python `d.get(k)` on an association list. -/
def dictLookup (k : Str) (d : List (Str × Str)) : Option Str :=
  (d.find? (fun p => p.1 = k)).map (·.2)

/-! ## Part 2 of the source — `extract_sku_and_title`

The regex `\s+([A-Z0-9][A-Z0-9.\-]{3,})$` of `_SKU_PATTERN` can only match
with its group equal to the whole final whitespace-delimited token of the
(stripped) input: the group has to run to the end of the string, its
character class excludes whitespace, and a mandatory whitespace character
precedes it.  `re.search` then reports `m.start()` at the first character
of the whitespace run before that token.  The definitions below embed
exactly that reading; `m.group(1)` is `skuToken`, and the test combines
the shape imposed by the regex with the three explicit Python checks. -/

/-- The character class `[A-Z0-9.\-]` of `_SKU_PATTERN`. -/
def isSkuChar (c : Char) : Bool := isUpperAZ c || isDigitC c || c = '.' || c = '-'

/-- `_SIZES` of the source (source name starts with an underscore). -/
def SIZES : List Str :=
  [['X', 'S'], ['S'], ['M'], ['L'], ['X', 'L'], ['X', 'X', 'L'], ['X', 'X', 'X', 'L'],
   ['S', 'I', 'Z', 'E'], ['T', 'A', 'I', 'L', 'L', 'E']]

/-- The final whitespace-delimited token of a stripped string (reversed
left-over prefix, token). -/
def splitTrailing (name : Str) : Str × Str :=
  let revName := name.reverse
  ((revName.dropWhile (fun c => !isWS c)), (revName.takeWhile (fun c => !isWS c)).reverse)

/-- Acceptance test for a SKU candidate: the shape forced by the regex
(head in `[A-Z0-9]`, all characters in the class, length at least 4 —
the `{3,}` after the first character) plus the three checks of the
Python `if`. -/
def skuAccept (tok : Str) : Bool :=
  (match tok with
   | [] => false
   | c :: _ => isUpperAZ c || isDigitC c)
  && tok.all isSkuChar
  && decide (4 ≤ tok.length)
  && tok.any isDigitC
  && !(SIZES.contains (pyUpper tok))

/-- `extract_sku_and_title` of the source. -/
def extract_sku_and_title (catalog_name : Str) : Str × Option Str :=
  let name := trim catalog_name
  let restRev := (splitTrailing name).1
  let tok := (splitTrailing name).2
  if restRev ≠ [] ∧ skuAccept tok then
    (trim (restRev.dropWhile isWS).reverse, some tok)
  else (name, none)

/-! ## Part 1 of the source — physical stock parsing

`parse_physical_stock` receives the decoded text (`_decode` is an
encoding-selection loop over raw bytes, outside the shallow embedding; per
the source it never raises, falling back to a lossy decode). -/

/-- `"\r\n" → "\n"`, applied left to right as `str.replace` does. -/
def replaceCRLF : Str → Str
  | [] => []
  | '\r' :: '\n' :: rest => '\n' :: replaceCRLF rest
  | c :: rest => c :: replaceCRLF rest

/-- The line-ending normalization of `parse_physical_stock`:
`content.replace("\r\n", "\n").replace("\r", "\n")`. -/
def normalizeNewlines (s : Str) : Str :=
  (replaceCRLF s).map (fun c => if c = '\r' then '\n' else c)

/-- Character class `[A-Z\s]` of the store-marker regex. -/
def isMarkerChar (c : Char) : Bool := isUpperAZ c || isWS c

/-- Prefix match for the regex tail `[\d_]+;[\d]+-[\d]+`: each `+` is
greedy, and since no repeated class contains the delimiter that follows
it, greedy matching needs no backtracking here. -/
def matchNumTail (l : Str) : Bool :=
  let a := l.takeWhile (fun c => isDigitC c || c = '_')
  let r1 := l.dropWhile (fun c => isDigitC c || c = '_')
  !a.isEmpty &&
    (match r1 with
     | ';' :: r2 =>
       let b := r2.takeWhile isDigitC
       let r3 := r2.dropWhile isDigitC
       !b.isEmpty &&
         (match r3 with
          | '-' :: r4 => !(r4.takeWhile isDigitC).isEmpty
          | _ => false)
     | _ => false)

/-- Backtracking loop for `[A-Z][A-Z\s]+[A-Z];...` anchored at one
position: `c` is the first character (already `[A-Z]`), and `j + 1` counts
the characters consumed by the greedy `[A-Z\s]+`, tried longest first as
the regex engine does.  Returns `group(1)` on success. -/
def matchAtAux (c : Char) (rest : Str) : Nat → Option Str
  | 0 => none
  | j + 1 =>
    match rest.drop (j + 1) with
    | d :: ';' :: tail =>
      if isUpperAZ d && (rest.take (j + 1)).all isMarkerChar && matchNumTail tail then
        some (c :: rest.take (j + 1) ++ [d])
      else matchAtAux c rest j
    | _ => matchAtAux c rest j

/-- Match the store-marker regex at the start of `l`. -/
def matchAt : Str → Option Str
  | [] => none
  | c :: rest => if isUpperAZ c then matchAtAux c rest rest.length else none

/-- `re.search`: try every start position, left to right. -/
def regexSearchStore : Str → Option Str
  | [] => none
  | c :: rest =>
    match matchAt (c :: rest) with
    | some g => some g
    | none => regexSearchStore rest

/-- Python `pat in s` (substring containment). -/
def hasInfix (pat : Str) : Str → Bool
  | [] => pat.isEmpty
  | c :: rest => pat.isPrefixOf (c :: rest) || hasInfix pat rest

/-- `_detect_store` of the source: the regex
`([A-Z][A-Z\s]+[A-Z]);[\d_]+;[\d]+-[\d]+`, with the literal
`"STREET ART"` fallback. -/
def detect_store (content : Str) : Option Str :=
  match regexSearchStore content with
  | some g => some (trim g)
  | none =>
    if hasInfix ("STREET ART;".toList) content then some ("STREET ART".toList)
    else none

/-- `_ONE_SIZE_VARIANTS` of the source. -/
def ONE_SIZE_VARIANTS : List Str :=
  ["one size", "one-size", "onesize", "os", "o/s", "taille unique",
   "unique", "u", "tu", "ns", "no size"].map String.toList

/-- `_normalize_size` of the source. -/
def normalize_size (size : Str) : Str :=
  if trim (pyLower size) ∈ ONE_SIZE_VARIANTS then "Taille unique".toList else size

/-- One record of the physical stock (`records.append({...})` in the
source, field names kept). -/
structure PhysRecord where
  article : Str
  code_barre : Str
  nom_catalogue : Str
  taille : Str
  qte : Int
  prix_achat : ℚ
  prix_vente : ℚ
deriving DecidableEq, Repr

/-- The per-chunk body of the `for part in content.split(...)` loop:
`none` mirrors every `continue`.  The source guards fields 7 and 9 with
`len(fields) > 7` / `> 9`, both implied by the `len(fields) < 10` skip. -/
def mkRecord (fields : List Str) : Option PhysRecord :=
  if fields.length < 10 then none
  else
    let article := trim (fields.getD 0 [])
    let code_barre := trim (fields.getD 1 [])
    let nom := trim (stripQuotes (trim (fields.getD 2 [])))
    let taille := normalize_size (trim (stripQuotes (trim (fields.getD 3 []))))
    let qte_raw := trim (fields.getD 4 [])
    let pa_raw := trim (fields.getD 7 [])
    let pv_raw := trim (fields.getD 9 [])
    if code_barre = [] ∨ pyUpper code_barre = "TOTAL".toList ∨ article = [] ∨ nom = [] then none
    else if ';' ∈ article.take 3 then none
    else some
      { article := article
        code_barre := code_barre
        nom_catalogue := nom
        taille := taille
        qte := intOfRaw qte_raw
        prix_achat := floatOfRaw pa_raw
        prix_vente := floatOfRaw pv_raw }

/-- The two fatal outcomes of `parse_physical_stock` (both `ValueError`
in the source, distinguished by their message). -/
inductive ParseErr where
  | storeMarkerNotFound
  | noRecords
deriving DecidableEq, Repr

/-- The record list extracted once the store marker is known. -/
def extractRecords (content marker : Str) : List PhysRecord :=
  ((splitOnList (marker ++ [';']) content).drop 1).filterMap
    (fun part => mkRecord (splitChar ';' part))

/-- `parse_physical_stock` of the source, on decoded text. -/
def parse_physical_stock (content : Str) : Except ParseErr (List PhysRecord) :=
  let c := normalizeNewlines content
  match detect_store c with
  | none => .error .storeMarkerNotFound
  | some marker =>
    let recs := extractRecords c marker
    if recs = [] then .error .noRecords else .ok recs

/-! ## Part 4 of the source — carry-over detection -/

/-- `normalize_name` of the source: strip accents, lowercase, remove
quote characters (the regex class holds `"`, two curly quotes and `'`),
collapse whitespace runs to one space, strip. -/
def isQuoteChar (c : Char) : Bool := c = '"' || c = '“' || c = '”' || c = '\''

/-- Drop the second of two adjacent spaces, repeatedly. -/
def squeezeSpaces : Str → Str
  | [] => []
  | [c] => [c]
  | a :: b :: rest =>
    if a = ' ' && b = ' ' then squeezeSpaces (b :: rest)
    else a :: squeezeSpaces (b :: rest)

/-- Collapse every whitespace run to a single space (`re.sub(r"\s+", " ", ·)`). -/
def collapseWS (s : Str) : Str :=
  squeezeSpaces (s.map (fun c => if isWS c then ' ' else c))

def normalize_name (name : Str) : Str :=
  trim (collapseWS ((pyLower (stripAccents name)).filter (fun c => !isQuoteChar c)))

/-- `get_product_id` of the source: `barcode.split("-")[0]`. -/
def get_product_id (barcode : Str) : Str := barcode.takeWhile (· ≠ '-')

/-- The `Name_no_sku` / `Norm_name` columns added by `detect_carry_over`. -/
def normNameR (r : PhysRecord) : Str :=
  normalize_name (extract_sku_and_title r.nom_catalogue).1

/-- The `Product_ID` column added by `detect_carry_over`. -/
def productIdR (r : PhysRecord) : Str := get_product_id r.code_barre

/-- Python `sorted` comparison on strings: lexicographic by code point. -/
def strLtB : Str → Str → Bool
  | [], [] => false
  | [], _ :: _ => true
  | _ :: _, [] => false
  | a :: as, b :: bs => if a < b then true else if b < a then false else strLtB as bs

/-- The sort order used to model Python `sorted` (`a` may precede `b`). -/
def strLe (a b : Str) : Prop := strLtB b a = false

instance : DecidableRel strLe := fun a b => by unfold strLe; infer_instance

def sortStr (l : List Str) : List Str := l.insertionSort strLe

/-- `sorted(x.unique().tolist())` for the `Product_ID` values of one
`Norm_name` group (pandas `.unique` keeps distinct values; the sorted
result is determined by the set of values). -/
def groupPids (recs : List PhysRecord) (n : Str) : List Str :=
  sortStr (((recs.filter (fun r => normNameR r = n)).map productIdR).dedup)

/-- Position of the first occurrence (Python `enumerate` index of a
distinct value). -/
def posOf (x : Str) : List Str → Nat
  | [] => 0
  | y :: ys => if y = x then 0 else posOf x ys + 1

/-- The `carry_over_map` built by `detect_carry_over`, modelled
extensionally by its lookup function: the Python dict holds key
`(norm_name, pid)` exactly for groups spanning more than one product id,
with value `f"S{i + 1}"` for the position `i` of `pid` in the sorted
distinct ids. -/
def carry_over_map (recs : List PhysRecord) : Str × Str → Option Str :=
  fun np =>
    let pids := groupPids recs np.1
    if 1 < pids.length ∧ np.2 ∈ pids then
      some ('S' :: natDigits (posOf np.2 pids + 1))
    else none

/-! ## Part 2 of the source — brand list and `build_vendor_list` -/

/-- `KNOWN_BRANDS_RAW` of the source, verbatim. -/
def KNOWN_BRANDS_RAW : List Str :=
  ["New Balance Numeric", "The Loose Company", "Deus Ex Machina",
   "Bonjour Urethane", "Bronson Speed Co", "Thrasher Seasonal",
   "The North Face", "The Quiet Life", "Converse Skate",
   "Loreak Mendian", "Poetic Collective", "Miles Griptape",
   "Beton Cire", "Bronze 56K", "Cash Only", "Film Trucks",
   "Anti Hero", "Carhartt WIP", "DC Shoes", "Last Resort Ab",
   "New Balance", "Dial Tone", "Haze Wheels", "Shake Junt",
   "Tiger Claw", "Toy Machine", "Santa Cruz", "Jason Markk",
   "Butter Goods", "Pull-In", "Hotel Blue", "Stance Socks",
   "No Name", "On Running", "Quasi", "Rave",
   "Ace", "Adidas", "Analog", "Anon", "April", "Arcade",
   "Armistice", "Birkenstock", "Blind", "Bones",
   "Broski", "Butter", "Carhartt", "Clarks", "Cliche", "Coal",
   "Commune", "Converse", "Creature", "Deus", "DGK", "Dime",
   "Eastpak", "Element", "Estime", "Fjallraven", "Gramicci",
   "Hélas", "Helas", "Herschel", "Hockey", "Huf", "Independent",
   "Isle", "Jessup", "Komono", "Krooked", "Limosine", "Magenta",
   "Mini Logo", "Neff", "Nike Sb", "Nixon", "Obey", "Palace",
   "Patagonia", "Passport", "Pizza", "Polar", "Powell",
   "Pusher", "Puma", "Rains", "Reebok", "Ripcare", "Ripndip",
   "Rvca", "Schmoove", "Sour", "Spitfire", "Stance",
   "Street Art", "Streetart", "Studio", "Stussy", "Thrasher",
   "Tired", "Veja", "Vans", "Venture", "Volcom", "Welcome",
   "Wknd", "Yardsale", "Zero", "Antiz"].map String.toList

/-- The key-length-descending order of the brand dictionaries (`sorted`
with `key=lambda x: len(x[0])`, `reverse=True`; Python `sorted` is stable
and so is `insertionSort`). -/
def brandRel (a b : Str × Str) : Prop := b.1.length ≤ a.1.length

instance : DecidableRel brandRel := fun a b => by unfold brandRel; infer_instance

instance : IsTotal (Str × Str) brandRel :=
  ⟨fun a b => (Nat.le_total b.1.length a.1.length).imp (fun h => h) (fun h => h)⟩

instance : IsTrans (Str × Str) brandRel :=
  ⟨fun _ _ _ h1 h2 => Nat.le_trans h2 h1⟩

/-- `KNOWN_BRANDS` of the source:
`dict(sorted({b.upper(): b for b in KNOWN_BRANDS_RAW}.items(), key=len, reverse=True))`. -/
def KNOWN_BRANDS : List (Str × Str) :=
  (KNOWN_BRANDS_RAW.foldl (fun d b => dictInsert (pyUpper b) b d) []).insertionSort brandRel

/-- Whether a stripped Shopify vendor value passes the filter of
`build_vendor_list`: `v.strip() and not v.startswith("À") and
v.lower() not in ("a corriger", "")`. -/
def vendorKept (v : Str) : Bool :=
  !(trim v).isEmpty && !(v.head? = some 'À') &&
    !(pyLower v = "a corriger".toList) && !(pyLower v).isEmpty

/-- `build_vendor_list` of the source, taking the `Vendor` column of the
Shopify export as a list of cell values (`dropna().str.strip().unique()`
is modelled by `uniqueFirst ∘ map trim`; with `keep_default_na=False`
every cell is a string, so `dropna` drops nothing). -/
def build_vendor_list (vendorCol : List Str) : List (Str × Str) :=
  let vendors := uniqueFirst (vendorCol.map trim)
  let merged := vendors.foldl
    (fun m v => if vendorKept v then dictInsert (pyUpper v) v m else m) KNOWN_BRANDS
  merged.insertionSort brandRel

/-! ## Part 5 of the source — `sync_stocks`

A DataFrame row of the Shopify export: the columns touched by the engine
(`Title`, `Variant Quantity`, `Variant Barcode`) are explicit, every other
column is carried opaquely in `other`. -/

structure ShopRow where
  title : Str
  qty : Str
  barcode : Str
  other : List (Str × Str)
deriving DecidableEq, Repr

structure QtyChange where
  code_barre : Str
  titre : Str
  ancienne : Str
  nouvelle : Str
deriving DecidableEq, Repr

structure ZeroEntry where
  code_barre : Str
  titre : Str
  ancienne : Str
deriving DecidableEq, Repr

structure CoEntry where
  code_barre : Str
  ancien_titre : Str
  nouveau_titre : Str
deriving DecidableEq, Repr

structure NewEntry where
  code_barre : Str
  nom : Str
  taille : Str
  qte : Int
  prix_achat : ℚ
  prix_vente : ℚ
deriving DecidableEq, Repr

structure SyncStats where
  total_physical : Nat
  total_shopify : Nat
  matched : List Str
  qty_changes : List QtyChange
  set_to_zero : List ZeroEntry
  not_in_shopify : List NewEntry
  carry_over_updates : List CoEntry
deriving DecidableEq, Repr

/-- The upward walk of `_get_title` over already-processed rows:
`range(idx - 1, max(idx - 20, -1), -1)` visits at most 19 prior rows,
nearest first. -/
def findPriorTitle : Nat → List ShopRow → Option Str
  | 0, _ => none
  | _, [] => none
  | fuel + 1, r :: rest =>
    if trim r.title ≠ [] then some (trim r.title) else findPriorTitle fuel rest

/-- `_get_title(updated, idx)` of the source: the stripped title of the
current row if non-empty, else the nearest non-empty stripped title among
the at most 19 rows above, else `f"(barcode: {raw barcode})"`.  `prior`
holds the rows above `row` in table order. -/
def getTitle (prior : List ShopRow) (row : ShopRow) : Str :=
  if trim row.title ≠ [] then trim row.title
  else
    match findPriorTitle 19 prior.reverse with
    | some t => t
    | none => "(barcode: ".toList ++ row.barcode ++ [')']

/-- `phys_index` of the source: `{row["Code_barre"]: row for ...}`,
last record wins on duplicate barcodes. -/
def physIndex (physical : List PhysRecord) (b : Str) : Option PhysRecord :=
  physical.reverse.find? (fun r => r.code_barre = b)

/-- What one iteration of the `for idx, row in updated.iterrows()` loop
produces: the (possibly rewritten) row and at most one entry for each
stats list. -/
structure StepOut where
  row : ShopRow
  matchedB : Option Str
  qtyC : Option QtyChange
  zeroE : Option ZeroEntry
  coE : Option CoEntry
deriving DecidableEq, Repr

/-- The loop body of `sync_stocks` for one row.  `prior` is the list of
already-processed (updated) rows above this one, used by `_get_title`.
Note the body reads the row's original title (`row.get(COL_TITLE)`) and
barcode; only `updated.at[idx, ...]` writes change the stored row. -/
def processRow (pI : Str → Option PhysRecord) (coMap : Str × Str → Option Str)
    (prior : List ShopRow) (row : ShopRow) : StepOut :=
  let barcode := trim row.barcode
  if barcode = [] then ⟨row, none, none, none, none⟩
  else
    match pI barcode with
    | some phys =>
      let oldQty := trim row.qty
      let newQty := intStr phys.qte
      let qtyC : Option QtyChange :=
        if oldQty ≠ newQty then some ⟨barcode, getTitle prior row, oldQty, newQty⟩ else none
      let row1 : ShopRow := { row with qty := newQty }
      let key := (normNameR phys, productIdR phys)
      match coMap key with
      | some season =>
        let curTitle := trim row.title
        if curTitle ≠ [] ∧ ¬ hasInfix ('-' :: ' ' :: season) curTitle then
          let newTitle := curTitle ++ (' ' :: '-' :: ' ' :: season)
          ⟨{ row1 with title := newTitle }, some barcode, qtyC, none,
            some ⟨barcode, curTitle, newTitle⟩⟩
        else ⟨row1, some barcode, qtyC, none, none⟩
      | none => ⟨row1, some barcode, qtyC, none, none⟩
    | none =>
      let oldQty := trim row.qty
      if oldQty ≠ ['0'] ∧ oldQty ≠ [] then
        ⟨{ row with qty := ['0'] }, none, none, some ⟨barcode, getTitle prior row, oldQty⟩, none⟩
      else ⟨row, none, none, none, none⟩

/-- Loop state: processed rows so far plus the four accumulated lists. -/
structure SyncState where
  rows : List ShopRow
  matched : List Str
  qty_changes : List QtyChange
  set_to_zero : List ZeroEntry
  carry_over_updates : List CoEntry
deriving DecidableEq, Repr

def syncStep (pI : Str → Option PhysRecord) (coMap : Str × Str → Option Str)
    (st : SyncState) (row : ShopRow) : SyncState :=
  let o := processRow pI coMap st.rows row
  { rows := st.rows ++ [o.row]
    matched := st.matched ++ o.matchedB.toList
    qty_changes := st.qty_changes ++ o.qtyC.toList
    set_to_zero := st.set_to_zero ++ o.zeroE.toList
    carry_over_updates := st.carry_over_updates ++ o.coE.toList }

/-- The `not_in_shop` loop: physical barcodes absent from the stripped
Shopify barcode set. -/
def notInShopify (physical : List PhysRecord) (shopify : List ShopRow) : List NewEntry :=
  let shopBC := shopify.map (fun r => trim r.barcode)
  physical.filterMap (fun r =>
    if r.code_barre ≠ [] ∧ r.code_barre ∉ shopBC then
      some ⟨r.code_barre, r.nom_catalogue, r.taille, r.qte, r.prix_achat, r.prix_vente⟩
    else none)

/-- `sync_stocks` of the source: returns the updated table and the stats. -/
def sync_stocks (physical : List PhysRecord) (shopify : List ShopRow)
    (coMap : Str × Str → Option Str) : List ShopRow × SyncStats :=
  let pI := physIndex physical
  let st := shopify.foldl (syncStep pI coMap) ⟨[], [], [], [], []⟩
  (st.rows,
   { total_physical := physical.length
     total_shopify := shopify.length
     matched := st.matched
     qty_changes := st.qty_changes
     set_to_zero := st.set_to_zero
     not_in_shopify := notInShopify physical shopify
     carry_over_updates := st.carry_over_updates })

/-! ## Part 7 of the source — `filter_zero_stock_products` -/

/-- `to_int` of the source (local helper in `filter_zero_stock_products`):
`int(float(str(val).replace(",", ".")))` with fallback 0. -/
def to_int (s : Str) : Int := intOfRaw s

/-- One iteration of pass 1 of the filter: for a non-empty stripped
title the dict entry becomes `d.get(title, False) or to_int(qty) > 0`
(first `if title not in d: d[title] = False`, then the conditional
`d[title] = True`); other keys are untouched. -/
def thsStep (d : Str → Option Bool) (row : ShopRow) : Str → Option Bool :=
  let t := trim row.title
  if t = [] then d
  else fun t' => if t' = t then some ((d t).getD false || decide (0 < to_int row.qty)) else d t'

/-- Pass 1 of the filter, as the lookup function of the `title_has_stock`
dict. -/
def titleHasStock (rows : List ShopRow) : Str → Option Bool :=
  rows.foldl thsStep (fun _ => none)

/-- `filter_zero_stock_products` of the source (pass 2: keep a row when
`title_has_stock.get(str(t).strip(), True)`).  The source returns the
table unchanged when the quantity column is missing — impossible in this
model, where every row carries a `qty` field — or when the table is
empty, in which case the filter below also returns it unchanged. -/
def filter_zero_stock_products (rows : List ShopRow) : List ShopRow :=
  rows.filter (fun r => (titleHasStock rows (trim r.title)).getD true)

/-! ## Specification-side definitions used by the claim theorems -/

/-- A placeholder row (used only as the default of `List.getD`). -/
def emptyRow : ShopRow := ⟨[], [], [], []⟩

/-- A Shopify row agrees with the physical index on its quantity: the
state every matched row is left in by one reconciliation run. -/
def synced (pI : Str → Option PhysRecord) (r : ShopRow) : Prop :=
  ∀ p, trim r.barcode ≠ [] → pI (trim r.barcode) = some p → r.qty = intStr p.qte

/-- Independent statement of the title-resolution rule, written against
the rows above the current one in upward order (`pr` is `prior.reverse`,
so `pr.getD i` is the row `i + 1` positions above): the row's own
stripped title when non-empty; otherwise the first non-empty stripped
title within the at most 19 rows above; otherwise the barcode fallback
text. -/
def resolvedTitleSpec (pr : List ShopRow) (row : ShopRow) (t : Str) : Prop :=
  (trim row.title ≠ [] ∧ t = trim row.title) ∨
  (trim row.title = [] ∧
    ∃ i, i < 19 ∧ i < pr.length ∧ t = trim (pr.getD i emptyRow).title ∧ t ≠ [] ∧
      ∀ j, j < i → trim (pr.getD j emptyRow).title = []) ∨
  (trim row.title = [] ∧
    (∀ j, j < 19 → j < pr.length → trim (pr.getD j emptyRow).title = []) ∧
    t = "(barcode: ".toList ++ row.barcode ++ [')'])

/-! ## General lemmas about the string primitives -/

theorem takeWhile_append_all {p : Char → Bool} :
    ∀ {a : Str} (b : Str), (∀ c ∈ a, p c = true) → (a ++ b).takeWhile p = a ++ b.takeWhile p := by
  intro a
  induction a with
  | nil => intro b _; simp
  | cons x xs ih =>
    intro b h
    have hx : p x = true := h x (List.mem_cons_self x xs)
    simp only [List.cons_append, List.takeWhile_cons, hx, if_true, List.cons.injEq, true_and]
    exact ih b (fun c hc => h c (List.mem_cons_of_mem x hc))

theorem dropWhile_append_all {p : Char → Bool} :
    ∀ {a : Str} (b : Str), (∀ c ∈ a, p c = true) → (a ++ b).dropWhile p = b.dropWhile p := by
  intro a
  induction a with
  | nil => intro b _; simp
  | cons x xs ih =>
    intro b h
    have hx : p x = true := h x (List.mem_cons_self x xs)
    simp only [List.cons_append, List.dropWhile_cons, hx, if_true]
    exact ih b (fun c hc => h c (List.mem_cons_of_mem x hc))

theorem dropWhile_eq_self_of_all {p : Char → Bool} :
    ∀ {l : Str}, (∀ c ∈ l, p c = false) → l.dropWhile p = l := by
  intro l
  induction l with
  | nil => intro _; rfl
  | cons x xs _ =>
    intro h
    have hx : p x = false := h x (List.mem_cons_self x xs)
    simp [List.dropWhile_cons, hx]

theorem head_dropWhile_false {p : Char → Bool} :
    ∀ {l : Str} {c : Char} {rest : Str}, l.dropWhile p = c :: rest → p c = false := by
  intro l
  induction l with
  | nil => intro c rest h; cases h
  | cons x xs ih =>
    intro c rest h
    by_cases hx : p x = true
    · rw [List.dropWhile_cons, if_pos hx] at h
      exact ih h
    · rw [List.dropWhile_cons, if_neg hx] at h
      cases h
      simpa using hx

theorem mem_of_mem_dropWhile {p : Char → Bool} {c : Char} {l : Str}
    (h : c ∈ l.dropWhile p) : c ∈ l :=
  (List.dropWhile_sublist p).mem h

theorem mem_of_mem_trim {c : Char} : ∀ {l : Str}, c ∈ trim l → c ∈ l := by
  intro l h
  unfold trim at h
  rw [List.mem_reverse] at h
  have h1 := mem_of_mem_dropWhile h
  rw [List.mem_reverse] at h1
  exact mem_of_mem_dropWhile h1

theorem trim_eq_self_of_all {l : Str} (h : ∀ c ∈ l, isWS c = false) : trim l = l := by
  unfold trim
  rw [dropWhile_eq_self_of_all h]
  rw [dropWhile_eq_self_of_all (fun c hc => h c (List.mem_reverse.mp hc))]
  exact List.reverse_reverse l

theorem digitChar_not_ws (k : Nat) : isWS (digitChar k) = false := by
  have hall : ∀ c ∈ digitChars, isWS c = false := by decide
  have hmem : digitChar k ∈ digitChars ∨ digitChar k = '0' := by
    unfold digitChar
    rcases Nat.lt_or_ge k digitChars.length with h | h
    · left
      rw [List.getD_eq_getElem digitChars '0' h]
      exact List.getElem_mem h
    · right
      exact List.getD_eq_default digitChars '0' h
  rcases hmem with h | h
  · exact hall _ h
  · rw [h]; decide

theorem natDigitsAux_not_ws :
    ∀ (fuel n : Nat) (c : Char), c ∈ natDigitsAux fuel n → isWS c = false := by
  intro fuel
  induction fuel with
  | zero => intro n c h; cases h
  | succ f ih =>
    intro n c h
    unfold natDigitsAux at h
    by_cases hn : n < 10
    · rw [if_pos hn] at h
      rcases List.mem_singleton.mp h with rfl
      exact digitChar_not_ws n
    · rw [if_neg hn] at h
      rcases List.mem_append.mp h with h1 | h1
      · exact ih (n / 10) c h1
      · rcases List.mem_singleton.mp h1 with rfl
        exact digitChar_not_ws (n % 10)

theorem intStr_not_ws {i : Int} {c : Char} (h : c ∈ intStr i) : isWS c = false := by
  unfold intStr at h
  by_cases hi : i < 0
  · rw [if_pos hi] at h
    rcases List.mem_cons.mp h with rfl | h1
    · decide
    · exact natDigitsAux_not_ws _ _ c h1
  · rw [if_neg hi] at h
    exact natDigitsAux_not_ws _ _ c h

theorem trim_intStr (i : Int) : trim (intStr i) = intStr i :=
  trim_eq_self_of_all (fun _ hc => intStr_not_ws hc)

/-! ## Claim C2 — `extract_sku_and_title` -/

/-- C2 (amended): if the trimmed input decomposes as a prefix, a
whitespace run and a final whitespace-free token, the function returns
(prefix trimmed, the token) exactly when the token passes `skuAccept`
(all characters uppercase letters, digits, dots or hyphens, the first one
a letter or digit, length at least 4, at least one digit, not a size
token), and the full trimmed input with no SKU otherwise; an input whose
trimmed form contains no whitespace at all yields no SKU.  The two
examples of the specification hold. -/
theorem C2_extract_sku_characterization :
    (∀ (s pre ws tok : Str),
      trim s = pre ++ ws ++ tok →
      ws ≠ [] → (∀ c ∈ ws, isWS c = true) →
      (∀ c ∈ tok, isWS c = false) →
      (∀ c, pre.getLast? = some c → isWS c = false) →
      extract_sku_and_title s =
        if skuAccept tok then (trim pre, some tok) else (trim s, none)) ∧
    (∀ s : Str, (∀ c ∈ trim s, isWS c = false) →
      extract_sku_and_title s = (trim s, none)) ∧
    extract_sku_and_title ("CARHARTT WIP COTTON TRUNKS WHITE + WHITE I029375.931.XX".toList) =
      ("CARHARTT WIP COTTON TRUNKS WHITE + WHITE".toList, some ("I029375.931.XX".toList)) ∧
    extract_sku_and_title ("GX1000 FALL FLOWER COPPER 8.125 PLANCHE DE SKATE".toList) =
      ("GX1000 FALL FLOWER COPPER 8.125 PLANCHE DE SKATE".toList, none) := by
  refine ⟨?_, ?_, by decide, by decide⟩
  · intro s pre ws tok hname hwsne hws htok hlast
    have hrev : (trim s).reverse = tok.reverse ++ (ws.reverse ++ pre.reverse) := by
      rw [hname]
      simp [List.reverse_append]
    cases hwr : ws.reverse with
    | nil => exact absurd (by simpa using congrArg List.reverse hwr) hwsne
    | cons w wrest =>
      have hw : isWS w = true := hws w (by
        have : w ∈ ws.reverse := by rw [hwr]; exact List.mem_cons_self w wrest
        exact List.mem_reverse.mp this)
      have hnw : ((fun c => !isWS c) w) = false := by simp [hw]
      have htake : (trim s).reverse.takeWhile (fun c => !isWS c) = tok.reverse := by
        rw [hrev, takeWhile_append_all _ (fun c hc => by
          simp [htok c (List.mem_reverse.mp hc)])]
        rw [hwr, List.cons_append, List.takeWhile_cons_of_neg (by simp [hnw]), List.append_nil]
      have hdrop : (trim s).reverse.dropWhile (fun c => !isWS c) = ws.reverse ++ pre.reverse := by
        rw [hrev, dropWhile_append_all _ (fun c hc => by
          simp [htok c (List.mem_reverse.mp hc)])]
        rw [hwr, List.cons_append, List.dropWhile_cons_of_neg (by simp [hnw])]
      have hsplit : splitTrailing (trim s) = (ws.reverse ++ pre.reverse, tok) := by
        simp only [splitTrailing]
        rw [htake, hdrop, List.reverse_reverse]
      have hne : ws.reverse ++ pre.reverse ≠ [] := by
        rw [hwr]
        simp
      have hpredrop : (ws.reverse ++ pre.reverse).dropWhile isWS = pre.reverse := by
        rw [dropWhile_append_all _ (fun c hc => hws c (List.mem_reverse.mp hc))]
        cases hpr : pre.reverse with
        | nil => rfl
        | cons c0 cr =>
          have hc0 : pre.getLast? = some c0 := by
            rw [← List.head?_reverse, hpr]
            rfl
          exact List.dropWhile_cons_of_neg (by simp [hlast c0 hc0])
      by_cases hsku : skuAccept tok = true
      · rw [if_pos hsku]
        simp only [extract_sku_and_title, hsplit]
        rw [if_pos ⟨hne, hsku⟩, hpredrop, List.reverse_reverse]
      · rw [if_neg hsku]
        simp only [extract_sku_and_title, hsplit]
        rw [if_neg (fun hc => hsku hc.2)]
  · intro s hno
    have hdrop : (trim s).reverse.dropWhile (fun c => !isWS c) = [] := by
      rw [List.dropWhile_eq_nil_iff]
      intro c hc
      simp [hno c (List.mem_reverse.mp hc)]
    simp only [extract_sku_and_title, splitTrailing, hdrop]
    simp

/-- Witness for C2: the characterization applied to the concrete input
`"A B123"`, whose trailing token is accepted as a SKU. -/
theorem C2_extract_sku_characterization_witness :
    extract_sku_and_title ("A B123".toList) = (trim ("A".toList), some ("B123".toList)) := by
  have h := C2_extract_sku_characterization.1 ("A B123".toList) ("A".toList) [' ']
    ("B123".toList) (by decide) (by decide) (by decide) (by decide)
    (by intro c hc; simp at hc; subst hc; decide)
  rw [h]
  decide

/-- Counterexample to C2 as stated: the trimmed input `"FOO -123"` ends in
the whitespace-separated token `"-123"`, which has length 4, consists only
of uppercase letters, digits, dots and hyphens, contains a digit and is
not a size token — so the claim prescribes `("FOO", "-123")` — yet the
function extracts no SKU, because the regex additionally requires the
token's first character to be a letter or digit. -/
theorem C2_counterexample :
    extract_sku_and_title ("FOO -123".toList) = ("FOO -123".toList, none) ∧
    trim ("FOO -123".toList) = "FOO".toList ++ [' '] ++ "-123".toList ∧
    4 ≤ ("-123".toList).length ∧
    (∀ c ∈ ("-123".toList), (isUpperAZ c || isDigitC c || c = '.' || c = '-') = true) ∧
    ("-123".toList).any isDigitC = true ∧
    pyUpper ("-123".toList) ∉ SIZES := by
  decide

/-! ## Lemmas about one step of the reconciliation loop -/

section SyncLemmas

variable (pI : Str → Option PhysRecord) (coMap : Str × Str → Option Str)

theorem processRow_frame (prior : List ShopRow) (row : ShopRow) :
    (processRow pI coMap prior row).row.barcode = row.barcode ∧
    (processRow pI coMap prior row).row.other = row.other := by
  simp only [processRow]
  refine ⟨?_, ?_⟩ <;> (repeat' split) <;> rfl

theorem processRow_matchedB (prior : List ShopRow) (row : ShopRow) :
    (processRow pI coMap prior row).matchedB =
      if trim row.barcode ≠ [] ∧ (pI (trim row.barcode)).isSome then
        some (trim row.barcode)
      else none := by
  by_cases h1 : trim row.barcode = []
  · simp only [processRow]
    rw [if_pos h1]
    have hrhs : ¬(trim row.barcode ≠ [] ∧ (pI (trim row.barcode)).isSome = true) :=
      fun hc => hc.1 h1
    rw [if_neg hrhs]
  · simp only [processRow]
    rw [if_neg h1]
    cases h2 : pI (trim row.barcode) with
    | none =>
      simp only [h2]
      have hrhs : ¬(trim row.barcode ≠ [] ∧ (none : Option PhysRecord).isSome = true) :=
        fun hc => by simpa using hc.2
      rw [if_neg hrhs]
      repeat' split
      all_goals rfl
    | some p =>
      simp only [h2]
      rw [if_pos (⟨h1, rfl⟩ : trim row.barcode ≠ [] ∧ (some p).isSome = true)]
      repeat' split
      all_goals rfl

theorem processRow_zeroE (prior : List ShopRow) (row : ShopRow) :
    (processRow pI coMap prior row).zeroE =
      if trim row.barcode ≠ [] ∧ pI (trim row.barcode) = none ∧
          trim row.qty ≠ ['0'] ∧ trim row.qty ≠ [] then
        some ⟨trim row.barcode, getTitle prior row, trim row.qty⟩
      else none := by
  by_cases h1 : trim row.barcode = []
  · simp only [processRow]
    rw [if_pos h1]
    have hrhs : ¬(trim row.barcode ≠ [] ∧ pI (trim row.barcode) = none ∧
        trim row.qty ≠ ['0'] ∧ trim row.qty ≠ []) := fun hc => hc.1 h1
    rw [if_neg hrhs]
  · simp only [processRow]
    rw [if_neg h1]
    cases h2 : pI (trim row.barcode) with
    | none =>
      simp only [h2]
      split <;> rename_i hcond
      · rw [if_pos ⟨h1, by simp, hcond.1, hcond.2⟩]
      · rw [if_neg (fun hc => hcond ⟨hc.2.2.1, hc.2.2.2⟩)]
    | some p =>
      simp only [h2]
      have hrhs : ¬(trim row.barcode ≠ [] ∧ (some p = none) ∧
          trim row.qty ≠ ['0'] ∧ trim row.qty ≠ []) := fun hc => by simpa using hc.2.1
      rw [if_neg hrhs]
      repeat' split
      all_goals rfl

theorem processRow_qtyC (prior : List ShopRow) (row : ShopRow) :
    (processRow pI coMap prior row).qtyC =
      match pI (trim row.barcode) with
      | some p =>
        if trim row.barcode ≠ [] ∧ trim row.qty ≠ intStr p.qte then
          some ⟨trim row.barcode, getTitle prior row, trim row.qty, intStr p.qte⟩
        else none
      | none => none := by
  by_cases h1 : trim row.barcode = []
  · simp only [processRow]
    rw [if_pos h1]
    cases h2 : pI (trim row.barcode) with
    | none => simp only [h2]
    | some p =>
      simp only [h2]
      have hrhs : ¬(trim row.barcode ≠ [] ∧ trim row.qty ≠ intStr p.qte) := fun hc => hc.1 h1
      rw [if_neg hrhs]
  · simp only [processRow]
    rw [if_neg h1]
    cases h2 : pI (trim row.barcode) with
    | none =>
      simp only [h2]
      split <;> rfl
    | some p =>
      simp only [h2]
      have hgoal : (if trim row.qty ≠ intStr p.qte then
          some (⟨trim row.barcode, getTitle prior row, trim row.qty, intStr p.qte⟩ : QtyChange)
          else none) =
          if trim row.barcode ≠ [] ∧ trim row.qty ≠ intStr p.qte then
            some ⟨trim row.barcode, getTitle prior row, trim row.qty, intStr p.qte⟩
          else none := by
        split <;> rename_i hq
        · rw [if_pos ⟨h1, hq⟩]
        · rw [if_neg (fun hc => hq hc.2)]
      rw [← hgoal]
      repeat' split
      all_goals simp_all

theorem processRow_row_qty (prior : List ShopRow) (row : ShopRow) (p : PhysRecord)
    (h1 : trim row.barcode ≠ []) (h2 : pI (trim row.barcode) = some p) :
    (processRow pI coMap prior row).row.qty = intStr p.qte := by
  simp only [processRow]
  rw [if_neg h1]
  simp only [h2]
  repeat' split
  all_goals rfl

theorem processRow_row_synced (prior : List ShopRow) (row : ShopRow) :
    synced pI (processRow pI coMap prior row).row := by
  intro p hne hsome
  have hb := (processRow_frame pI coMap prior row).1
  rw [hb] at hne hsome
  exact processRow_row_qty pI coMap prior row p hne hsome

theorem processRow_qtyC_none_of_synced (prior : List ShopRow) (row : ShopRow)
    (h : synced pI row) : (processRow pI coMap prior row).qtyC = none := by
  rw [processRow_qtyC]
  cases h2 : pI (trim row.barcode) with
  | none => rfl
  | some p =>
    by_cases h1 : trim row.barcode = []
    · simp [h1]
    · have hq : row.qty = intStr p.qte := h p h1 h2
      simp [hq, trim_intStr]

/-! ## Lemmas about the folded loop -/

theorem foldl_sync_rows_map {α : Type} (g : ShopRow → α)
    (hg : ∀ prior row, g (processRow pI coMap prior row).row = g row) :
    ∀ (rows : List ShopRow) (st : SyncState),
      ((rows.foldl (syncStep pI coMap) st).rows).map g = st.rows.map g ++ rows.map g := by
  intro rows
  induction rows with
  | nil => intro st; simp
  | cons r rs ih =>
    intro st
    rw [List.foldl_cons, ih]
    simp [syncStep, hg]

theorem foldl_sync_matched :
    ∀ (rows : List ShopRow) (st : SyncState),
      (rows.foldl (syncStep pI coMap) st).matched =
        st.matched ++ rows.filterMap (fun row =>
          if trim row.barcode ≠ [] ∧ (pI (trim row.barcode)).isSome then
            some (trim row.barcode)
          else none) := by
  intro rows
  induction rows with
  | nil => intro st; simp
  | cons r rs ih =>
    intro st
    rw [List.foldl_cons, ih, List.filterMap_cons]
    split <;> rename_i hsplit
    · simp [syncStep, processRow_matchedB, hsplit]
    · simp [syncStep, processRow_matchedB, hsplit]

theorem foldl_sync_zero_codes :
    ∀ (rows : List ShopRow) (st : SyncState),
      ((rows.foldl (syncStep pI coMap) st).set_to_zero).map (fun e => e.code_barre) =
        st.set_to_zero.map (fun e => e.code_barre) ++ rows.filterMap (fun row =>
          if trim row.barcode ≠ [] ∧ pI (trim row.barcode) = none ∧
              trim row.qty ≠ ['0'] ∧ trim row.qty ≠ [] then
            some (trim row.barcode)
          else none) := by
  intro rows
  induction rows with
  | nil => intro st; simp
  | cons r rs ih =>
    intro st
    rw [List.foldl_cons, ih, List.filterMap_cons]
    by_cases hc : trim r.barcode ≠ [] ∧ pI (trim r.barcode) = none ∧
        trim r.qty ≠ ['0'] ∧ trim r.qty ≠ []
    · simp [syncStep, processRow_zeroE, if_pos hc]
    · simp [syncStep, processRow_zeroE, if_neg hc]

theorem foldl_sync_rows_synced :
    ∀ (rows : List ShopRow) (st : SyncState),
      (∀ r ∈ st.rows, synced pI r) →
      ∀ r ∈ (rows.foldl (syncStep pI coMap) st).rows, synced pI r := by
  intro rows
  induction rows with
  | nil => intro st hst; exact hst
  | cons r rs ih =>
    intro st hst
    rw [List.foldl_cons]
    apply ih
    intro r' hr'
    simp only [syncStep, List.mem_append, List.mem_singleton] at hr'
    rcases hr' with hr' | rfl
    · exact hst r' hr'
    · exact processRow_row_synced pI coMap st.rows r

theorem foldl_sync_qty_changes_of_synced :
    ∀ (rows : List ShopRow) (st : SyncState),
      (∀ r ∈ rows, synced pI r) →
      (rows.foldl (syncStep pI coMap) st).qty_changes = st.qty_changes := by
  intro rows
  induction rows with
  | nil => intro st _; rfl
  | cons r rs ih =>
    intro st hall
    rw [List.foldl_cons, ih _ (fun r' hr' => hall r' (List.mem_cons_of_mem r hr'))]
    simp [syncStep,
      processRow_qtyC_none_of_synced pI coMap st.rows r (hall r (List.mem_cons_self r rs))]

end SyncLemmas

/-! ## Claim C10 — frame property of `sync_stocks` -/

/-- C10: the returned table has the same rows in the same order, with
every column other than `Variant Quantity` and `Title` (here: the
`barcode` field and the opaque `other` columns) equal to the input's.
The engine operates on a copy (`updated = shopify_df.copy()`); in this
embedding the inputs are values, so their immutability is inherent. -/
theorem C10_sync_frame (physical : List PhysRecord) (shopify : List ShopRow)
    (coMap : Str × Str → Option Str) :
    ((sync_stocks physical shopify coMap).1).map (fun r => (r.barcode, r.other)) =
      shopify.map (fun r => (r.barcode, r.other)) := by
  have h := foldl_sync_rows_map (physIndex physical) coMap
    (fun r => (r.barcode, r.other))
    (fun prior row => by
      have hf := processRow_frame (physIndex physical) coMap prior row
      simp [hf.1, hf.2])
    shopify ⟨[], [], [], [], []⟩
  simpa [sync_stocks] using h

/-! ## Claim C4 — idempotence of the reconciliation -/

/-- C4: running `sync_stocks` a second time, on the updated table
produced by a first run with the same physical records and carry-over
map, reports no further quantity changes: the first run left every
matched row holding exactly `str(phys["Qte"])`. -/
theorem C4_reconciliation_idempotent (physical : List PhysRecord)
    (shopify : List ShopRow) (coMap : Str × Str → Option Str) :
    ((sync_stocks physical ((sync_stocks physical shopify coMap).1) coMap).2).qty_changes
      = [] := by
  have hsyncd : ∀ r ∈ (sync_stocks physical shopify coMap).1, synced (physIndex physical) r := by
    simp only [sync_stocks]
    exact foldl_sync_rows_synced (physIndex physical) coMap shopify ⟨[], [], [], [], []⟩
      (by intro r hr; cases hr)
  show ((sync_stocks physical ((sync_stocks physical shopify coMap).1) coMap).2).qty_changes = []
  simp only [sync_stocks]
  exact foldl_sync_qty_changes_of_synced (physIndex physical) coMap _ _ hsyncd

/-! ## Claim C1 — partition of barcodes into the stats lists -/

/-- C1 (amended): in one run of `sync_stocks`, the `matched` list holds
exactly (in table order) the stripped barcodes of the platform rows with
a non-empty barcode present in the physical index; the `set_to_zero`
entries hold exactly the rows with a non-empty barcode, no physical
match, and a stripped quantity that is neither `"0"` nor empty (a row
already at zero or blank is logged nowhere); and the new-product entries
hold exactly the physical records with a non-empty barcode absent from
the platform's stripped barcode set. -/
theorem C1_sync_partition_amended (physical : List PhysRecord) (shopify : List ShopRow)
    (coMap : Str × Str → Option Str) :
    (sync_stocks physical shopify coMap).2.matched =
      shopify.filterMap (fun row =>
        if trim row.barcode ≠ [] ∧ (physIndex physical (trim row.barcode)).isSome then
          some (trim row.barcode)
        else none) ∧
    ((sync_stocks physical shopify coMap).2.set_to_zero).map (fun e => e.code_barre) =
      shopify.filterMap (fun row =>
        if trim row.barcode ≠ [] ∧ physIndex physical (trim row.barcode) = none ∧
            trim row.qty ≠ ['0'] ∧ trim row.qty ≠ [] then
          some (trim row.barcode)
        else none) ∧
    ((sync_stocks physical shopify coMap).2.not_in_shopify).map (fun e => e.code_barre) =
      physical.filterMap (fun r =>
        if r.code_barre ≠ [] ∧ r.code_barre ∉ shopify.map (fun x => trim x.barcode) then
          some r.code_barre
        else none) := by
  refine ⟨?_, ?_, ?_⟩
  · simpa [sync_stocks] using
      foldl_sync_matched (physIndex physical) coMap shopify ⟨[], [], [], [], []⟩
  · simpa [sync_stocks] using
      foldl_sync_zero_codes (physIndex physical) coMap shopify ⟨[], [], [], [], []⟩
  · simp only [sync_stocks, notInShopify, List.map_filterMap]
    congr 1
    funext r
    split <;> rfl

/-- Counterexample to C1 as stated: a platform row whose barcode has no
physical match but whose quantity is already `"0"` appears in neither
the matched list nor the set-to-zero list. -/
theorem C1_counterexample :
    trim (⟨"T".toList, ['0'], "B1".toList, []⟩ : ShopRow).barcode ≠ [] ∧
    (sync_stocks [] [⟨"T".toList, ['0'], "B1".toList, []⟩] (fun _ => none)).2.matched = [] ∧
    (sync_stocks [] [⟨"T".toList, ['0'], "B1".toList, []⟩] (fun _ => none)).2.set_to_zero
      = [] := by
  refine ⟨by decide, ?_, ?_⟩ <;> rfl

/-! ## Claim C9 — title resolution for logged entries -/

theorem findPriorTitle_zero (l : List ShopRow) : findPriorTitle 0 l = none := by
  cases l <;> rfl

theorem findPriorTitle_succ_cons (f : Nat) (r : ShopRow) (rest : List ShopRow) :
    findPriorTitle (f + 1) (r :: rest) =
      if trim r.title ≠ [] then some (trim r.title) else findPriorTitle f rest := rfl

theorem findPriorTitle_some_spec :
    ∀ (fuel : Nat) (l : List ShopRow) (t : Str),
      findPriorTitle fuel l = some t →
      ∃ i, i < fuel ∧ i < l.length ∧ t = trim (l.getD i emptyRow).title ∧ t ≠ [] ∧
        ∀ j, j < i → trim (l.getD j emptyRow).title = [] := by
  intro fuel
  induction fuel with
  | zero => intro l t h; rw [findPriorTitle_zero] at h; cases h
  | succ f ih =>
    intro l t h
    cases l with
    | nil => cases h
    | cons r rest =>
      rw [findPriorTitle_succ_cons] at h
      by_cases hr : trim r.title ≠ []
      · rw [if_pos hr] at h
        cases h
        exact ⟨0, Nat.succ_pos f, Nat.succ_pos rest.length, rfl, hr,
          fun j hj => absurd hj (Nat.not_lt_zero j)⟩
      · rw [if_neg hr] at h
        obtain ⟨i, hif, hil, ht, htne, hmin⟩ := ih rest t h
        refine ⟨i + 1, Nat.succ_lt_succ hif, Nat.succ_lt_succ hil, ht, htne, ?_⟩
        intro j hj
        cases j with
        | zero => simpa using hr
        | succ j' => exact hmin j' (Nat.lt_of_succ_lt_succ hj)

theorem findPriorTitle_none_spec :
    ∀ (fuel : Nat) (l : List ShopRow),
      findPriorTitle fuel l = none →
      ∀ j, j < fuel → j < l.length → trim (l.getD j emptyRow).title = [] := by
  intro fuel
  induction fuel with
  | zero => intro l _ j hj; exact absurd hj (Nat.not_lt_zero j)
  | succ f ih =>
    intro l h j hjf hjl
    cases l with
    | nil => cases hjl
    | cons r rest =>
      rw [findPriorTitle_succ_cons] at h
      by_cases hr : trim r.title ≠ []
      · rw [if_pos hr] at h
        cases h
      · rw [if_neg hr] at h
        cases j with
        | zero => simpa using hr
        | succ j' =>
          exact ih rest h j' (Nat.lt_of_succ_lt_succ hjf) (by simpa using hjl)

theorem getTitle_spec (prior : List ShopRow) (row : ShopRow) :
    resolvedTitleSpec prior.reverse row (getTitle prior row) := by
  unfold getTitle resolvedTitleSpec
  by_cases h : trim row.title ≠ []
  · rw [if_pos h]
    exact Or.inl ⟨h, rfl⟩
  · rw [if_neg h]
    have hbl : trim row.title = [] := by simpa using h
    cases hf : findPriorTitle 19 prior.reverse with
    | some t =>
      obtain ⟨i, hif, hil, ht, htne, hmin⟩ := findPriorTitle_some_spec 19 prior.reverse t hf
      exact Or.inr (Or.inl ⟨hbl, i, hif, hil, ht, htne, hmin⟩)
    | none =>
      exact Or.inr (Or.inr ⟨hbl,
        fun j hj hjl => findPriorTitle_none_spec 19 prior.reverse hf j hj hjl, rfl⟩)

/-- C9 (amended): every quantity-change or set-to-zero entry records the
title computed by `_get_title` from the already-updated rows above the
current one, and that computation resolves titles as follows: the row's
own stripped title when non-empty; otherwise the nearest non-empty
stripped title among at most the 19 immediately preceding rows of the
working table; otherwise the fallback text `"(barcode: <raw barcode>)"`. -/
theorem C9_title_resolution_amended :
    (∀ (pI : Str → Option PhysRecord) (coMap : Str × Str → Option Str)
        (prior : List ShopRow) (row : ShopRow) (e : QtyChange),
      (processRow pI coMap prior row).qtyC = some e → e.titre = getTitle prior row) ∧
    (∀ (pI : Str → Option PhysRecord) (coMap : Str × Str → Option Str)
        (prior : List ShopRow) (row : ShopRow) (e : ZeroEntry),
      (processRow pI coMap prior row).zeroE = some e → e.titre = getTitle prior row) ∧
    (∀ (prior : List ShopRow) (row : ShopRow),
      resolvedTitleSpec prior.reverse row (getTitle prior row)) := by
  refine ⟨?_, ?_, getTitle_spec⟩
  · intro pI coMap prior row e h
    rw [processRow_qtyC] at h
    cases h2 : pI (trim row.barcode) with
    | none => rw [h2] at h; cases h
    | some p =>
      rw [h2] at h
      simp only [] at h
      split at h
      · cases h; rfl
      · cases h
  · intro pI coMap prior row e h
    rw [processRow_zeroE] at h
    split at h
    · cases h; rfl
    · cases h

/-- Witness for C9: the entry logged for a concrete matched row with a
changed quantity records exactly `getTitle` of its context. -/
theorem C9_title_resolution_amended_witness :
    (⟨"CB1".toList, "T".toList, "3".toList, "7".toList⟩ : QtyChange).titre =
      getTitle [] (⟨"T".toList, "3".toList, "CB1".toList, []⟩ : ShopRow) :=
  C9_title_resolution_amended.1
    (physIndex [⟨"A".toList, "CB1".toList, "N".toList, "M".toList, 7, 0, 0⟩])
    (fun _ => none) [] (⟨"T".toList, "3".toList, "CB1".toList, []⟩ : ShopRow)
    (⟨"CB1".toList, "T".toList, "3".toList, "7".toList⟩ : QtyChange) (by decide)

/-- Counterexample to C9 as stated: in a table whose only non-empty title
sits 20 rows above a zeroed row, the walk (bounded to 19 rows) misses it
and the fallback text is recorded instead of that nearest non-empty
title. -/
theorem C9_counterexample :
    ((sync_stocks []
        ((⟨"T".toList, [], [], []⟩ : ShopRow) ::
          List.replicate 19 (⟨[], "5".toList, "B".toList, []⟩ : ShopRow) ++
          [(⟨[], "5".toList, "B20".toList, []⟩ : ShopRow)])
        (fun _ => none)).2.set_to_zero).getLast? =
      some ⟨"B20".toList, "(barcode: B20)".toList, "5".toList⟩ ∧
    trim (⟨"T".toList, [], [], []⟩ : ShopRow).title = "T".toList ∧
    "(barcode: B20)".toList ≠ "T".toList := by
  refine ⟨?_, by decide, by decide⟩
  rfl

/-! ## Order lemmas for the Python string comparison `strLtB` -/

theorem strLtB_irrefl : ∀ l : Str, strLtB l l = false := by
  intro l
  induction l with
  | nil => rfl
  | cons c cs ih => simp [strLtB, lt_irrefl, ih]

theorem strLtB_trichotomy : ∀ a b : Str, strLtB a b = true ∨ strLtB b a = true ∨ a = b := by
  intro a
  induction a with
  | nil =>
    intro b
    cases b with
    | nil => exact Or.inr (Or.inr rfl)
    | cons d ds => exact Or.inl rfl
  | cons c cs ih =>
    intro b
    cases b with
    | nil => exact Or.inr (Or.inl rfl)
    | cons d ds =>
      rcases lt_trichotomy c d with h | h | h
      · exact Or.inl (by simp [strLtB, h])
      · subst h
        rcases ih ds with h1 | h1 | h1
        · exact Or.inl (by simp [strLtB, lt_irrefl, h1])
        · exact Or.inr (Or.inl (by simp [strLtB, lt_irrefl, h1]))
        · exact Or.inr (Or.inr (by rw [h1]))
      · exact Or.inr (Or.inl (by simp [strLtB, h]))

theorem strLtB_trans :
    ∀ a b c : Str, strLtB a b = true → strLtB b c = true → strLtB a c = true := by
  intro a
  induction a with
  | nil =>
    intro b c hab hbc
    cases c with
    | nil =>
      cases b with
      | nil => cases hbc
      | cons y ys => cases hbc
    | cons z zs => rfl
  | cons x xs ih =>
    intro b c hab hbc
    cases b with
    | nil => cases hab
    | cons y ys =>
      cases c with
      | nil => cases hbc
      | cons z zs =>
        by_cases h1 : x < y
        · by_cases h2 : y < z
          · simp [strLtB, lt_trans h1 h2]
          · have h3 : ¬ z < y := by
              intro h3
              simp [strLtB, h2, h3] at hbc
            have hyz : y = z := le_antisymm (le_of_not_lt h3) (le_of_not_lt h2)
            subst hyz
            simp [strLtB, h1]
        · have h4 : ¬ y < x := by
            intro h4
            simp [strLtB, h1, h4] at hab
          have hxy : x = y := le_antisymm (le_of_not_lt h4) (le_of_not_lt h1)
          subst hxy
          have hab' : strLtB xs ys = true := by simpa [strLtB, lt_irrefl] using hab
          by_cases h2 : x < z
          · simp [strLtB, h2]
          · have h3 : ¬ z < x := by
              intro h3
              simp [strLtB, h2, h3] at hbc
            have hxz : x = z := le_antisymm (le_of_not_lt h3) (le_of_not_lt h2)
            subst hxz
            have hbc' : strLtB ys zs = true := by simpa [strLtB, lt_irrefl] using hbc
            simp [strLtB, lt_irrefl, ih ys zs hab' hbc']

theorem strLtB_asymm (a b : Str) (hab : strLtB a b = true) : strLtB b a = false := by
  cases hba : strLtB b a with
  | false => rfl
  | true =>
    have := strLtB_trans a b a hab hba
    rw [strLtB_irrefl] at this
    cases this

instance : IsTotal Str strLe :=
  ⟨fun a b => by
    cases hba : strLtB b a with
    | false => exact Or.inl hba
    | true => exact Or.inr (strLtB_asymm b a hba)⟩

instance : IsTrans Str strLe :=
  ⟨fun a b c hab hbc => by
    cases hca : strLtB c a with
    | false => exact hca
    | true =>
      exfalso
      rcases strLtB_trichotomy a b with h | h | h
      · have := strLtB_trans c a b hca h
        rw [hbc] at this
        cases this
      · rw [hab] at h
        cases h
      · subst h
        rw [hbc] at hca
        cases hca⟩

theorem sorted_nodup_strict {l : List Str} (hs : l.Sorted strLe) (hn : l.Nodup) :
    l.Pairwise (fun a b => strLtB a b = true) := by
  refine (hs.and hn).imp ?_
  rintro a b ⟨hle, hne⟩
  rcases strLtB_trichotomy a b with h | h | h
  · exact h
  · exact absurd h (by simpa [strLe] using hle)
  · exact absurd h hne

theorem posOf_sorted_count :
    ∀ (l : List Str), l.Pairwise (fun a b => strLtB a b = true) →
      ∀ p ∈ l, posOf p l = (l.filter (fun q => strLtB q p)).length := by
  intro l
  induction l with
  | nil => intro _ p hp; cases hp
  | cons x xs ih =>
    intro hpw p hp
    have hpw' := List.pairwise_cons.mp hpw
    rcases List.mem_cons.mp hp with rfl | hpx
    · have hfx : ∀ q ∈ xs, strLtB q p = false :=
        fun q hq => strLtB_asymm p q (hpw'.1 q hq)
      have hfilter : xs.filter (fun q => strLtB q p) = [] :=
        List.filter_eq_nil_iff.mpr (fun q hq => by simp [hfx q hq])
      simp [posOf, List.filter_cons, strLtB_irrefl, hfilter]
    · have hxp : strLtB x p = true := hpw'.1 p hpx
      have hxnep : x ≠ p := by
        rintro rfl
        rw [strLtB_irrefl] at hxp
        cases hxp
      rw [posOf, if_neg hxnep, ih hpw'.2 p hpx]
      simp [List.filter_cons, hxp]

theorem one_lt_length_iff_exists_ne {l : List Str} (hn : l.Nodup) {p : Str} (hp : p ∈ l) :
    1 < l.length ↔ ∃ q ∈ l, q ≠ p := by
  constructor
  · intro hlen
    cases l with
    | nil => cases hp
    | cons a t =>
      cases t with
      | nil => simp at hlen
      | cons b t' =>
        by_cases hpa : p = a
        · subst hpa
          refine ⟨b, by simp, ?_⟩
          have := (List.pairwise_cons.mp hn).1 b (by simp)
          exact fun hbp => this hbp.symm
        · exact ⟨a, by simp, fun hap => hpa hap.symm⟩
  · rintro ⟨q, hq, hqp⟩
    cases l with
    | nil => cases hp
    | cons a t =>
      cases t with
      | nil =>
        rcases List.mem_singleton.mp hp with rfl
        rcases List.mem_singleton.mp hq with rfl
        exact absurd rfl hqp
      | cons b t' => simp

/-! ## Claim C3 — the carry-over map -/

/-- C3: the carry-over map holds the key `(n, p)` exactly when some
record has normalized name `n` and product id `p` and another record
shares the name with a different product id; the season label is
`"S<k+1>"` where `k` is the number of distinct product ids of the group
lexicographically smaller than `p` — i.e. distinct ids sorted ascending
receive S1, S2, … in order, and a single-id name is absent.  On the
documented example, product ids `"65368"` and `"75368"` under one
normalized name receive `"S1"` and `"S2"`. -/
theorem C3_carry_over_characterization :
    (∀ (recs : List PhysRecord) (n p : Str),
      carry_over_map recs (n, p) =
        if (∃ r ∈ recs, normNameR r = n ∧ productIdR r = p) ∧
            (∃ r ∈ recs, normNameR r = n ∧ productIdR r ≠ p) then
          some ('S' :: natDigits
            ((((recs.filter (fun r => normNameR r = n)).map productIdR).dedup.filter
                (fun q => strLtB q p)).length + 1))
        else none) ∧
    carry_over_map
        [⟨"A1".toList, "65368-2".toList, "VESTE NOIRE I029375.931.XX".toList, "M".toList, 1, 0, 0⟩,
         ⟨"A2".toList, "75368-2".toList, "VESTE NOIRE I029375.932.XX".toList, "M".toList, 1, 0, 0⟩]
        ("veste noire".toList, "65368".toList) = some "S1".toList ∧
    carry_over_map
        [⟨"A1".toList, "65368-2".toList, "VESTE NOIRE I029375.931.XX".toList, "M".toList, 1, 0, 0⟩,
         ⟨"A2".toList, "75368-2".toList, "VESTE NOIRE I029375.932.XX".toList, "M".toList, 1, 0, 0⟩]
        ("veste noire".toList, "75368".toList) = some "S2".toList ∧
    carry_over_map
        [⟨"A1".toList, "65368-2".toList, "VESTE NOIRE I029375.931.XX".toList, "M".toList, 1, 0, 0⟩]
        ("veste noire".toList, "65368".toList) = none := by
  refine ⟨?_, by decide, by decide, by decide⟩
  intro recs n p
  have hsorted : List.Sorted strLe (groupPids recs n) := List.sorted_insertionSort strLe _
  have hperm : List.Perm (groupPids recs n)
      (((recs.filter (fun r => normNameR r = n)).map productIdR).dedup) :=
    List.perm_insertionSort strLe _
  have hnodup : (groupPids recs n).Nodup :=
    hperm.nodup_iff.mpr (List.nodup_dedup _)
  have hmem : ∀ q, q ∈ groupPids recs n ↔ ∃ r ∈ recs, normNameR r = n ∧ productIdR r = q := by
    intro q
    rw [hperm.mem_iff, List.mem_dedup, List.mem_map]
    constructor
    · rintro ⟨r, hr, rfl⟩
      rw [List.mem_filter] at hr
      exact ⟨r, hr.1, by simpa using hr.2, rfl⟩
    · rintro ⟨r, hr, hn', rfl⟩
      exact ⟨r, List.mem_filter.mpr ⟨hr, by simpa using hn'⟩, rfl⟩
  by_cases hcond : (∃ r ∈ recs, normNameR r = n ∧ productIdR r = p) ∧
      (∃ r ∈ recs, normNameR r = n ∧ productIdR r ≠ p)
  · rw [if_pos hcond]
    have hp : p ∈ groupPids recs n := (hmem p).mpr hcond.1
    have hq : ∃ q ∈ groupPids recs n, q ≠ p := by
      obtain ⟨r, hr, hrn, hrp⟩ := hcond.2
      exact ⟨productIdR r, (hmem _).mpr ⟨r, hr, hrn, rfl⟩, hrp⟩
    have hlen : 1 < (groupPids recs n).length :=
      (one_lt_length_iff_exists_ne hnodup hp).mpr hq
    have hpos : posOf p (groupPids recs n) =
        ((groupPids recs n).filter (fun q => strLtB q p)).length :=
      posOf_sorted_count _ (sorted_nodup_strict hsorted hnodup) p hp
    have hflen : ((groupPids recs n).filter (fun q => strLtB q p)).length =
        ((((recs.filter (fun r => normNameR r = n)).map productIdR).dedup.filter
          (fun q => strLtB q p))).length :=
      (hperm.filter _).length_eq
    show (if 1 < (groupPids recs n).length ∧ p ∈ groupPids recs n then
        some ('S' :: natDigits (posOf p (groupPids recs n) + 1)) else none) = _
    rw [if_pos ⟨hlen, hp⟩, hpos, hflen]
  · rw [if_neg hcond]
    show (if 1 < (groupPids recs n).length ∧ p ∈ groupPids recs n then
        some ('S' :: natDigits (posOf p (groupPids recs n) + 1)) else none) = none
    rw [if_neg]
    rintro ⟨hlen, hp⟩
    refine hcond ⟨(hmem p).mp hp, ?_⟩
    obtain ⟨q, hq, hqp⟩ := (one_lt_length_iff_exists_ne hnodup hp).mp hlen
    obtain ⟨r, hr, hrn, hrq⟩ := (hmem q).mp hq
    exact ⟨r, hr, hrn, by rw [hrq]; exact hqp⟩

/-! ## Claim C5 — the zero-stock filter -/

theorem titleHasStock_empty :
    ∀ (rows : List ShopRow) (d : Str → Option Bool),
      rows.foldl thsStep d [] = d [] := by
  intro rows
  induction rows with
  | nil => intro d; rfl
  | cons r rs ih =>
    intro d
    rw [List.foldl_cons, ih]
    by_cases htr : trim r.title = []
    · simp [thsStep, htr]
    · simp only [thsStep, if_neg htr]
      rw [if_neg (fun h => htr h.symm)]

theorem titleHasStock_aux (t : Str) (ht : t ≠ []) :
    ∀ (rows : List ShopRow) (d : Str → Option Bool),
      rows.foldl thsStep d t =
        if ∃ r ∈ rows, trim r.title = t then
          some ((d t).getD false || decide (∃ r ∈ rows, trim r.title = t ∧ 0 < to_int r.qty))
        else d t := by
  intro rows
  induction rows with
  | nil =>
    intro d
    rw [if_neg]
    · rfl
    · rintro ⟨r, hr, _⟩
      cases hr
  | cons r rs ih =>
    intro d
    rw [List.foldl_cons, ih]
    by_cases htr : trim r.title = []
    · have hstep : thsStep d r = d := by simp [thsStep, htr]
      rw [hstep]
      have h1 : (∃ x ∈ r :: rs, trim x.title = t) ↔ (∃ x ∈ rs, trim x.title = t) := by
        rw [List.exists_mem_cons_iff]
        constructor
        · rintro (h | h)
          · rw [htr] at h
            exact absurd h.symm ht
          · exact h
        · exact Or.inr
      have h2 : (∃ x ∈ r :: rs, trim x.title = t ∧ 0 < to_int x.qty) ↔
          (∃ x ∈ rs, trim x.title = t ∧ 0 < to_int x.qty) := by
        rw [List.exists_mem_cons_iff]
        constructor
        · rintro (h | h)
          · rw [htr] at h
            exact absurd h.1.symm ht
          · exact h
        · exact Or.inr
      simp only [h1, h2]
    · by_cases htt : t = trim r.title
      · have hcons : ∃ x ∈ r :: rs, trim x.title = t :=
          ⟨r, List.mem_cons_self r rs, htt.symm⟩
        rw [if_pos hcons]
        have hstept : thsStep d r t =
            some ((d t).getD false || decide (0 < to_int r.qty)) := by
          simp only [thsStep, if_neg htr]
          rw [if_pos htt, ← htt]
        have hqcons : (∃ x ∈ r :: rs, trim x.title = t ∧ 0 < to_int x.qty) ↔
            (0 < to_int r.qty ∨ ∃ x ∈ rs, trim x.title = t ∧ 0 < to_int x.qty) := by
          rw [List.exists_mem_cons_iff]
          constructor
          · rintro (h | h)
            · exact Or.inl h.2
            · exact Or.inr h
          · rintro (h | h)
            · exact Or.inl ⟨htt.symm, h⟩
            · exact Or.inr h
        by_cases hex : ∃ x ∈ rs, trim x.title = t
        · rw [if_pos hex, hstept]
          simp only [Option.getD_some, hqcons]
          by_cases hq : 0 < to_int r.qty <;>
            by_cases hb : ∃ x ∈ rs, trim x.title = t ∧ 0 < to_int x.qty <;>
            simp [hq, hb]
        · rw [if_neg hex, hstept]
          have hnq : ¬ ∃ x ∈ rs, trim x.title = t ∧ 0 < to_int x.qty :=
            fun ⟨x, hx, hxt, _⟩ => hex ⟨x, hx, hxt⟩
          simp only [hqcons]
          simp [hnq]
      · have hstept : thsStep d r t = d t := by
          simp only [thsStep, if_neg htr]
          rw [if_neg htt]
        rw [hstept]
        have h1 : (∃ x ∈ r :: rs, trim x.title = t) ↔ (∃ x ∈ rs, trim x.title = t) := by
          rw [List.exists_mem_cons_iff]
          constructor
          · rintro (h | h)
            · exact absurd h.symm htt
            · exact h
          · exact Or.inr
        have h2 : (∃ x ∈ r :: rs, trim x.title = t ∧ 0 < to_int x.qty) ↔
            (∃ x ∈ rs, trim x.title = t ∧ 0 < to_int x.qty) := by
          rw [List.exists_mem_cons_iff]
          constructor
          · rintro (h | h)
            · exact absurd h.1.symm htt
            · exact h
          · exact Or.inr
        simp only [h1, h2]

/-- The keep-decision of the filter, for a row of the table. -/
theorem filter_keep_char (rows : List ShopRow) (r : ShopRow) (hr : r ∈ rows) :
    (titleHasStock rows (trim r.title)).getD true =
      (decide (trim r.title = []) ||
        decide (∃ r' ∈ rows, trim r'.title = trim r.title ∧ 0 < to_int r'.qty)) := by
  by_cases ht : trim r.title = []
  · rw [ht]
    unfold titleHasStock
    rw [titleHasStock_empty]
    simp [ht]
  · unfold titleHasStock
    rw [titleHasStock_aux (trim r.title) ht rows (fun _ => none)]
    rw [if_pos ⟨r, hr, rfl⟩]
    simp [ht]

/-- C5: a row is kept exactly when its stripped title is empty or some
row of the same (stripped) title group has a quantity parsing to a
positive integer; the decision depends only on the stripped title, so a
retained group keeps all its variant rows; on the documented examples,
a [0, 0, 3] group is fully retained, a [0, 0, 0] group fully removed,
and a group with an unparseable quantity and no positive quantity
removed. -/
theorem C5_zero_stock_filter :
    (∀ rows : List ShopRow,
      filter_zero_stock_products rows = rows.filter (fun r =>
        decide (trim r.title = []) ||
          decide (∃ r' ∈ rows, trim r'.title = trim r.title ∧ 0 < to_int r'.qty))) ∧
    (∀ (rows : List ShopRow) (r r' : ShopRow), r ∈ rows →
      trim r.title = trim r'.title →
      r' ∈ filter_zero_stock_products rows →
      r ∈ filter_zero_stock_products rows) ∧
    filter_zero_stock_products
        [⟨"A".toList, "0".toList, [], []⟩, ⟨"A".toList, "0".toList, [], []⟩,
         ⟨"A".toList, "3".toList, [], []⟩] =
      [⟨"A".toList, "0".toList, [], []⟩, ⟨"A".toList, "0".toList, [], []⟩,
       ⟨"A".toList, "3".toList, [], []⟩] ∧
    filter_zero_stock_products
        [⟨"B".toList, "0".toList, [], []⟩, ⟨"B".toList, "0".toList, [], []⟩,
         ⟨"B".toList, "0".toList, [], []⟩] = [] ∧
    filter_zero_stock_products
        [⟨"C".toList, "x".toList, [], []⟩, ⟨"C".toList, "0".toList, [], []⟩] = [] := by
  have hfilter : ∀ rows : List ShopRow,
      filter_zero_stock_products rows = rows.filter (fun r =>
        decide (trim r.title = []) ||
          decide (∃ r' ∈ rows, trim r'.title = trim r.title ∧ 0 < to_int r'.qty)) := by
    intro rows
    unfold filter_zero_stock_products
    apply List.filter_congr
    intro r hr
    exact filter_keep_char rows r hr
  refine ⟨hfilter, ?_, by decide, by decide, by decide⟩
  intro rows r r' hr htt hr'
  rw [hfilter] at hr' ⊢
  rw [List.mem_filter] at hr'
  refine List.mem_filter.mpr ⟨hr, ?_⟩
  have := hr'.2
  simpa [htt] using this

/-- Witness for C5: group preservation applied to a concrete table — the
zero-quantity variant of a retained group is itself retained. -/
theorem C5_zero_stock_filter_witness :
    (⟨"A".toList, "0".toList, [], []⟩ : ShopRow) ∈
      filter_zero_stock_products
        [⟨"A".toList, "0".toList, [], []⟩, ⟨"A".toList, "3".toList, [], []⟩] :=
  C5_zero_stock_filter.2.1
    [⟨"A".toList, "0".toList, [], []⟩, ⟨"A".toList, "3".toList, [], []⟩]
    (⟨"A".toList, "0".toList, [], []⟩ : ShopRow)
    (⟨"A".toList, "3".toList, [], []⟩ : ShopRow)
    (by decide) (by decide) (by decide)

/-! ## Dictionary lemmas for the brand map -/

theorem dictLookup_cons (k : Str) (a : Str × Str) (rest : List (Str × Str)) :
    dictLookup k (a :: rest) = if a.1 = k then some a.2 else dictLookup k rest := by
  by_cases h : a.1 = k
  · simp [dictLookup, List.find?, decide_eq_true h, h]
  · simp [dictLookup, List.find?, decide_eq_false h, h]

theorem dictLookup_dictInsert (k k' v : Str) :
    ∀ d : List (Str × Str),
      dictLookup k (dictInsert k' v d) = if k = k' then some v else dictLookup k d := by
  intro d
  induction d with
  | nil =>
    rw [show dictInsert k' v [] = [(k', v)] from rfl, dictLookup_cons]
    by_cases h : k = k'
    · rw [if_pos h.symm, if_pos h]
    · rw [if_neg (fun hh => h hh.symm), if_neg h]
  | cons a rest ih =>
    by_cases ha : a.1 = k'
    · rw [dictInsert, if_pos ha, dictLookup_cons, dictLookup_cons]
      by_cases h : k = k'
      · rw [if_pos h.symm, if_pos h]
      · rw [if_neg (fun hh => h hh.symm), if_neg h, if_neg (fun hh => h (hh.symm.trans ha))]
    · rw [dictInsert, if_neg ha, dictLookup_cons, dictLookup_cons, ih]
      by_cases hak : a.1 = k
      · by_cases h : k = k'
        · exact absurd (hak.trans h) ha
        · simp [hak, h]
      · simp [hak]

theorem mem_keys_dictInsert (x k v : Str) :
    ∀ d : List (Str × Str),
      x ∈ (dictInsert k v d).map Prod.fst ↔ x = k ∨ x ∈ d.map Prod.fst := by
  intro d
  induction d with
  | nil => simp [dictInsert]
  | cons a rest ih =>
    by_cases ha : a.1 = k
    · rw [dictInsert, if_pos ha]
      simp [ha]
    · rw [dictInsert, if_neg ha]
      simp only [List.map_cons, List.mem_cons, ih]
      tauto

theorem dictInsert_keys_nodup (k v : Str) :
    ∀ d : List (Str × Str),
      (d.map Prod.fst).Nodup → ((dictInsert k v d).map Prod.fst).Nodup := by
  intro d
  induction d with
  | nil => intro _; simp [dictInsert]
  | cons a rest ih =>
    intro hnd
    rw [List.map_cons, List.nodup_cons] at hnd
    by_cases ha : a.1 = k
    · rw [dictInsert, if_pos ha]
      rw [List.map_cons, List.nodup_cons]
      exact ⟨ha ▸ hnd.1, hnd.2⟩
    · rw [dictInsert, if_neg ha]
      rw [List.map_cons, List.nodup_cons]
      refine ⟨?_, ih hnd.2⟩
      rw [mem_keys_dictInsert]
      rintro (h | h)
      · exact ha h
      · exact hnd.1 h

theorem dictLookup_eq_some_iff {d : List (Str × Str)} (hnd : (d.map Prod.fst).Nodup)
    {k v : Str} : dictLookup k d = some v ↔ (k, v) ∈ d := by
  induction d with
  | nil => simp [dictLookup]
  | cons a rest ih =>
    rw [List.map_cons, List.nodup_cons] at hnd
    rw [dictLookup_cons, List.mem_cons]
    by_cases hak : a.1 = k
    · rw [if_pos hak]
      constructor
      · intro h
        have hv : a.2 = v := Option.some.inj h
        left
        rw [← hak, ← hv]
      · rintro (h | h)
        · rw [← congrArg Prod.snd h]
        · exact absurd (by rw [hak]; exact List.mem_map.mpr ⟨(k, v), h, rfl⟩) hnd.1
    · rw [if_neg hak, ih hnd.2]
      constructor
      · exact Or.inr
      · rintro (h | h)
        · exact absurd (congrArg Prod.fst h).symm hak
        · exact h

theorem dictLookup_perm {d₁ d₂ : List (Str × Str)} (h : List.Perm d₁ d₂)
    (hnd : (d₁.map Prod.fst).Nodup) (k : Str) :
    dictLookup k d₁ = dictLookup k d₂ := by
  have hnd₂ : (d₂.map Prod.fst).Nodup := ((h.map Prod.fst).nodup_iff).mp hnd
  cases h1 : dictLookup k d₁ with
  | some v =>
    exact ((dictLookup_eq_some_iff hnd₂).mpr
      (h.mem_iff.mp ((dictLookup_eq_some_iff hnd).mp h1))).symm
  | none =>
    cases h2 : dictLookup k d₂ with
    | none => rfl
    | some v =>
      exfalso
      have : (k, v) ∈ d₁ := h.mem_iff.mpr ((dictLookup_eq_some_iff hnd₂).mp h2)
      rw [(dictLookup_eq_some_iff hnd).mpr this] at h1
      cases h1

theorem find?_append_cases (p : Str → Bool) (l₁ l₂ : List Str) :
    (l₁ ++ l₂).find? p =
      match l₁.find? p with
      | some x => some x
      | none => l₂.find? p := by
  induction l₁ with
  | nil => simp
  | cons x xs ih =>
    by_cases hx : p x
    · rw [List.cons_append, List.find?_cons_of_pos _ hx, List.find?_cons_of_pos _ hx]
    · rw [List.cons_append, List.find?_cons_of_neg _ hx, List.find?_cons_of_neg _ hx, ih]

theorem find?_eq_head?_filter (p : Str → Bool) :
    ∀ l : List Str, l.find? p = (l.filter p).head? := by
  intro l
  induction l with
  | nil => rfl
  | cons x xs ih =>
    by_cases hx : p x
    · rw [List.find?_cons_of_pos _ hx, List.filter_cons_of_pos hx]
      rfl
    · rw [List.find?_cons_of_neg _ hx, List.filter_cons_of_neg hx, ih]

theorem getLast?_filter_eq_find?_reverse (p : Str → Bool) (l : List Str) :
    (l.filter p).getLast? = l.reverse.find? p := by
  rw [← List.head?_reverse, ← List.filter_reverse, find?_eq_head?_filter]

theorem build_fold_lookup (k : Str) :
    ∀ (vs : List Str) (m : List (Str × Str)),
      dictLookup k (vs.foldl
          (fun m v => if vendorKept v then dictInsert (pyUpper v) v m else m) m) =
        match vs.reverse.find? (fun v => vendorKept v && decide (pyUpper v = k)) with
        | some v => some v
        | none => dictLookup k m := by
  intro vs
  induction vs with
  | nil => intro m; rfl
  | cons v vs' ih =>
    intro m
    rw [List.foldl_cons, ih, List.reverse_cons, find?_append_cases]
    cases hfind : vs'.reverse.find? (fun v => vendorKept v && decide (pyUpper v = k)) with
    | some w => rfl
    | none =>
      show dictLookup k (if vendorKept v then dictInsert (pyUpper v) v m else m) =
        match List.find? (fun x => vendorKept x && decide (pyUpper x = k)) [v] with
        | some w => some w
        | none => dictLookup k m
      by_cases hkept : vendorKept v
      · by_cases hk : pyUpper v = k
        · have hp : (vendorKept v && decide (pyUpper v = k)) = true := by simp [hkept, hk]
          have hfv : List.find? (fun x => vendorKept x && decide (pyUpper x = k)) [v] =
              some v :=
            List.find?_cons_of_pos [] hp
          rw [hfv, if_pos hkept, dictLookup_dictInsert]
          show (if k = pyUpper v then some v else dictLookup k m) = some v
          rw [if_pos hk.symm]
        · have hp : ¬ (vendorKept v && decide (pyUpper v = k)) = true := by simp [hk]
          have hfv : List.find? (fun x => vendorKept x && decide (pyUpper x = k)) [v] =
              List.find? (fun x => vendorKept x && decide (pyUpper x = k)) [] :=
            List.find?_cons_of_neg [] hp
          rw [hfv, if_pos hkept, dictLookup_dictInsert]
          show (if k = pyUpper v then some v else dictLookup k m) = dictLookup k m
          rw [if_neg (fun h => hk h.symm)]
      · have hkept' : vendorKept v = false := by simpa using hkept
        have hp : ¬ (vendorKept v && decide (pyUpper v = k)) = true := by simp [hkept']
        have hfv : List.find? (fun x => vendorKept x && decide (pyUpper x = k)) [v] =
            List.find? (fun x => vendorKept x && decide (pyUpper x = k)) [] :=
          List.find?_cons_of_neg [] hp
        rw [hfv, if_neg (show ¬ vendorKept v = true by simp [hkept'])]
        rfl

theorem foldl_dictInsert_keys_nodup :
    ∀ (l : List Str) (m : List (Str × Str)),
      (m.map Prod.fst).Nodup →
      ((l.foldl (fun d b => dictInsert (pyUpper b) b d) m).map Prod.fst).Nodup := by
  intro l
  induction l with
  | nil => intro m hm; exact hm
  | cons b bs ih =>
    intro m hm
    rw [List.foldl_cons]
    exact ih _ (dictInsert_keys_nodup _ _ _ hm)

theorem KNOWN_BRANDS_keys_nodup : (KNOWN_BRANDS.map Prod.fst).Nodup := by
  have hbase := foldl_dictInsert_keys_nodup KNOWN_BRANDS_RAW [] List.nodup_nil
  exact (((List.perm_insertionSort brandRel _).map Prod.fst).nodup_iff).mpr hbase

theorem build_merged_keys_nodup (vs : List Str) :
    ∀ (m : List (Str × Str)), (m.map Prod.fst).Nodup →
      ((vs.foldl (fun m v => if vendorKept v then dictInsert (pyUpper v) v m else m) m).map
        Prod.fst).Nodup := by
  induction vs with
  | nil => intro m hm; exact hm
  | cons v vs' ih =>
    intro m hm
    rw [List.foldl_cons]
    by_cases hv : vendorKept v
    · rw [if_pos hv]
      exact ih _ (dictInsert_keys_nodup _ _ _ hm)
    · rw [if_neg hv]
      exact ih _ hm

/-! ## Claim C6 — `build_vendor_list` -/

/-- C6 (amended): for every key, the merged map holds the last platform
vendor value (in first-appearance order of the distinct stripped values)
that passes the filter and uppercases to that key — platform casing wins
over the static list — and falls back to the static `KNOWN_BRANDS` entry
otherwise.  Excluded from the override pass are: values that are blank
after stripping, values whose first character is `'À'`, and values whose
lowercase form is exactly `"a corriger"` (not every casing of the
placeholder — see the counterexample).  The resulting entries are
ordered by decreasing key length. -/
theorem C6_vendor_list_amended :
    (∀ (vendorCol : List Str) (k : Str),
      dictLookup k (build_vendor_list vendorCol) =
        match ((uniqueFirst (vendorCol.map trim)).filter
            (fun v => vendorKept v && decide (pyUpper v = k))).getLast? with
        | some v => some v
        | none => dictLookup k KNOWN_BRANDS) ∧
    (∀ vendorCol : List Str, List.Sorted brandRel (build_vendor_list vendorCol)) := by
  constructor
  · intro vendorCol k
    have hnd : (((uniqueFirst (vendorCol.map trim)).foldl
        (fun m v => if vendorKept v then dictInsert (pyUpper v) v m else m)
        KNOWN_BRANDS).map Prod.fst).Nodup :=
      build_merged_keys_nodup _ KNOWN_BRANDS KNOWN_BRANDS_keys_nodup
    have hperm := List.perm_insertionSort brandRel
      ((uniqueFirst (vendorCol.map trim)).foldl
        (fun m v => if vendorKept v then dictInsert (pyUpper v) v m else m) KNOWN_BRANDS)
    have h1 : dictLookup k (build_vendor_list vendorCol) =
        dictLookup k ((uniqueFirst (vendorCol.map trim)).foldl
          (fun m v => if vendorKept v then dictInsert (pyUpper v) v m else m) KNOWN_BRANDS) :=
      (dictLookup_perm hperm.symm hnd k).symm
    rw [h1, build_fold_lookup k _ KNOWN_BRANDS, ← getLast?_filter_eq_find?_reverse]
  · intro vendorCol
    exact List.sorted_insertionSort brandRel _

/-- Counterexample to C6 as stated: the lowercase accented form
`"à corriger"` of the needs-correction placeholder is not excluded — it
does not start with `'À'` and its `lower()` is not `"a corriger"` — so it
overrides (inserts over) the key `"À CORRIGER"`, which the static brand
list does not contain. -/
theorem C6_counterexample :
    dictLookup ("À CORRIGER".toList) (build_vendor_list ["à corriger".toList]) =
      some ("à corriger".toList) ∧
    dictLookup ("À CORRIGER".toList) KNOWN_BRANDS = none ∧
    pyUpper ("à corriger".toList) = "À CORRIGER".toList := by
  refine ⟨?_, ?_, by decide⟩ <;> rfl

/-! ## Numeric-field lemmas for the physical parser -/

theorem parseDigits_neg {neg : Bool} {t1 : Str} {b : Bool} {ip : Nat} {fp : Str}
    (h : parseDigits neg t1 = some (b, ip, fp)) : b = neg := by
  simp only [parseDigits] at h
  split at h
  · split at h
    · cases h
    · simp at h
      exact h.1.symm
  · split at h
    · simp at h
      exact h.1.symm
    · cases h
  · cases h

theorem parseDecimal_true_mem {s : Str} {ip : Nat} {fp : Str}
    (h : parseDecimal s = some (true, ip, fp)) : '-' ∈ trim s := by
  unfold parseDecimal at h
  split at h
  · rename_i t1 heq
    rw [heq]
    exact List.mem_cons_self _ _
  · cases parseDigits_neg h
  · cases parseDigits_neg h

theorem mem_commaToDot_dash {s : Str} (h : '-' ∈ commaToDot s) : '-' ∈ s := by
  unfold commaToDot at h
  rcases List.mem_map.mp h with ⟨c, hc, hfc⟩
  by_cases hcc : c = ','
  · rw [if_pos hcc] at hfc
    cases hfc
  · rw [if_neg hcc] at hfc
    rw [← hfc]
    exact hc

theorem intOfRaw_nonneg {s : Str} (h : '-' ∉ s) : 0 ≤ intOfRaw s := by
  unfold intOfRaw
  cases hp : parseDecimal (commaToDot s) with
  | none => exact le_refl 0
  | some d =>
    obtain ⟨b, ip, fp⟩ := d
    cases b with
    | false => simp
    | true =>
      exfalso
      exact h (mem_commaToDot_dash (mem_of_mem_trim (parseDecimal_true_mem hp)))

theorem decimalVal_nonneg {ip : Nat} {fp : Str} : 0 ≤ decimalVal (false, ip, fp) := by
  unfold decimalVal
  simp only [if_neg Bool.false_ne_true]
  have h1 : (0 : ℚ) ≤ (ip : ℚ) := Nat.cast_nonneg ip
  have h2 : (0 : ℚ) ≤ (digitsVal fp : ℚ) / (10 : ℚ) ^ fp.length :=
    div_nonneg (Nat.cast_nonneg _) (by positivity)
  exact add_nonneg h1 h2

theorem floatOfRaw_nonneg {s : Str} (h : '-' ∉ s) : 0 ≤ floatOfRaw s := by
  unfold floatOfRaw
  cases hp : parseDecimal (commaToDot s) with
  | none => exact le_refl 0
  | some d =>
    obtain ⟨b, ip, fp⟩ := d
    cases b with
    | false => exact decimalVal_nonneg
    | true =>
      exfalso
      exact h (mem_commaToDot_dash (mem_of_mem_trim (parseDecimal_true_mem hp)))

theorem not_mem_trim {c : Char} {l : Str} (h : c ∉ l) : c ∉ trim l :=
  fun hc => h (mem_of_mem_trim hc)

/-! ## Claim C7 — fields of parsed physical records -/

/-- C7 (amended): every record produced by the parser has a non-empty
article code, name and barcode, and a barcode that is not `"TOTAL"` in
any casing; the quantity and the two prices are non-negative provided
the corresponding raw semicolon-delimited field contains no minus sign
(the parser never rejects a negative number — see the counterexample).
Every record of a successful parse comes from `mkRecord` on the fields
of one chunk. -/
theorem C7_record_fields_amended :
    (∀ (fields : List Str) (r : PhysRecord), mkRecord fields = some r →
      r.article ≠ [] ∧ r.nom_catalogue ≠ [] ∧ r.code_barre ≠ [] ∧
      pyUpper r.code_barre ≠ "TOTAL".toList ∧
      ('-' ∉ fields.getD 4 [] → 0 ≤ r.qte) ∧
      ('-' ∉ fields.getD 7 [] → 0 ≤ r.prix_achat) ∧
      ('-' ∉ fields.getD 9 [] → 0 ≤ r.prix_vente)) ∧
    (∀ (content : Str) (rs : List PhysRecord), parse_physical_stock content = .ok rs →
      ∀ r ∈ rs, ∃ fields, mkRecord fields = some r) := by
  constructor
  · intro fields r h
    simp only [mkRecord] at h
    split at h
    · cases h
    · split at h
      · cases h
      · rename_i hskip
        push_neg at hskip
        split at h
        · cases h
        · rename_i hsemi
          have hr := Option.some.inj h
          subst hr
          refine ⟨hskip.2.2.1, hskip.2.2.2, hskip.1, hskip.2.1, ?_, ?_, ?_⟩
          · intro hq
            exact intOfRaw_nonneg (not_mem_trim hq)
          · intro hq
            exact floatOfRaw_nonneg (not_mem_trim hq)
          · intro hq
            exact floatOfRaw_nonneg (not_mem_trim hq)
  · intro content rs hok r hr
    simp only [parse_physical_stock] at hok
    split at hok
    · cases hok
    · split at hok
      · cases hok
      · have hrs := Except.ok.inj hok
        subst hrs
        unfold extractRecords at hr
        rcases List.mem_filterMap.mp hr with ⟨part, _, hmk⟩
        exact ⟨splitChar ';' part, hmk⟩

/-- Counterexample to C7 as stated: a dump line whose quantity field is
`-2` parses successfully into a record with a negative quantity (and the
claim's non-negativity is not enforced anywhere). -/
theorem C7_counterexample :
    parse_physical_stock ("STREET ART;ART1;CB1;NOM;M;-2;;;;;;x".toList) =
      .ok [⟨"ART1".toList, "CB1".toList, "NOM".toList, "M".toList, -2, 0, 0⟩] ∧
    (-2 : Int) < 0 := by
  constructor
  · rfl
  · decide

/-- Witness for C7: the field guarantees instantiated on the fields of a
concrete well-formed chunk. -/
theorem C7_record_fields_amended_witness :
    (⟨"ART1".toList, "CB1".toList, "NOM".toList, "M".toList, 2, 0, 0⟩ :
        PhysRecord).article ≠ [] ∧
    0 ≤ (⟨"ART1".toList, "CB1".toList, "NOM".toList, "M".toList, 2, 0, 0⟩ :
        PhysRecord).qte := by
  have h := C7_record_fields_amended.1
    (["ART1".toList, "CB1".toList, "NOM".toList, "M".toList, "2".toList,
      [], [], [], [], []])
    (⟨"ART1".toList, "CB1".toList, "NOM".toList, "M".toList, 2, 0, 0⟩ : PhysRecord)
    (by rfl)
  exact ⟨h.1, h.2.2.2.2.1 (by decide)⟩

/-! ## Claim C8 — error behavior of the physical parser -/

/-- C8: parsing fails exactly when no store marker is detected in the
decoded content, or when zero valid records result; whether a chunk
yields a record depends only on the field count, the barcode, article
and name fields — never on the numeric fields, whose parse failures
default to zero, as the concrete malformed-quantity example shows. -/
theorem C8_parse_error_conditions :
    (∀ content : Str,
      parse_physical_stock content = .error .storeMarkerNotFound ↔
        detect_store (normalizeNewlines content) = none) ∧
    (∀ (content marker : Str),
      detect_store (normalizeNewlines content) = some marker →
      (parse_physical_stock content = .error .noRecords ↔
        extractRecords (normalizeNewlines content) marker = [])) ∧
    (∀ fields : List Str,
      (mkRecord fields).isSome = true ↔
        (10 ≤ fields.length ∧ trim (fields.getD 1 []) ≠ [] ∧
          pyUpper (trim (fields.getD 1 [])) ≠ "TOTAL".toList ∧
          trim (fields.getD 0 []) ≠ [] ∧
          trim (stripQuotes (trim (fields.getD 2 []))) ≠ [] ∧
          ';' ∉ (trim (fields.getD 0 [])).take 3)) ∧
    parse_physical_stock ("STREET ART;ART1;CB1;NOM;os;abc;;;x1;;y2;x".toList) =
      .ok [⟨"ART1".toList, "CB1".toList, "NOM".toList, "Taille unique".toList,
        0, 0, 0⟩] := by
  refine ⟨?_, ?_, ?_, by rfl⟩
  · intro content
    cases hd : detect_store (normalizeNewlines content) with
    | none => simp [parse_physical_stock, hd]
    | some m =>
      simp only [parse_physical_stock, hd]
      constructor
      · intro h
        split at h <;> simp_all
      · intro h
        simp_all
  · intro content marker hd
    simp only [parse_physical_stock, hd]
    constructor
    · intro h
      split at h
      · assumption
      · cases h
    · intro h
      rw [if_pos h]
  · intro fields
    simp only [mkRecord]
    by_cases h1 : fields.length < 10
    · rw [if_pos h1]
      constructor
      · intro hs
        cases hs
      · rintro ⟨hlen, _⟩
        exact absurd hlen (Nat.not_le.mpr h1)
    · rw [if_neg h1]
      by_cases h2 : trim (fields.getD 1 []) = [] ∨
          pyUpper (trim (fields.getD 1 [])) = "TOTAL".toList ∨
          trim (fields.getD 0 []) = [] ∨ trim (stripQuotes (trim (fields.getD 2 []))) = []
      · rw [if_pos h2]
        constructor
        · intro hs
          cases hs
        · rintro ⟨_, hcb, htot, hart, hnom, _⟩
          rcases h2 with h | h | h | h
          · exact (hcb h).elim
          · exact (htot h).elim
          · exact (hart h).elim
          · exact (hnom h).elim
      · rw [if_neg h2]
        push_neg at h2
        by_cases h3 : ';' ∈ (trim (fields.getD 0 [])).take 3
        · rw [if_pos h3]
          constructor
          · intro hs
            cases hs
          · rintro ⟨_, _, _, _, _, hsemi⟩
            exact (hsemi h3).elim
        · rw [if_neg h3]
          constructor
          · intro _
            exact ⟨Nat.le_of_not_lt h1, h2.1, h2.2.1, h2.2.2.1, h2.2.2.2, h3⟩
          · intro _
            rfl

/-- Witness for C8: the error-condition equivalence applied to a
concrete input that has a store marker but no valid record. -/
theorem C8_parse_error_conditions_witness :
    parse_physical_stock ("STREET ART;x".toList) = .error .noRecords := by
  have h := C8_parse_error_conditions.2.1 ("STREET ART;x".toList) ("STREET ART".toList)
    (by rfl)
  exact h.mpr (by rfl)

end StockSync
